import Mathlib

/-!
Verification of the conhost circular input buffer (`INPUT_INFORMATION`,
inputBuffer.cpp) and of the VT renderer invalidation helpers (`VtEngine`,
invalidate.cpp) of this repository.

The byte-pointer arithmetic of the source is modelled in `INPUT_RECORD`
units: every pointer increment and every length in the source is a multiple
of `sizeof(INPUT_RECORD)` (20 bytes), so `First`, `In`, `Out`, `Last` become
record indices relative to `First`, with `Last = size + 1` (the backing
store holds `InputBufferSize + 1` record slots, one of which is the free
sentinel slot).  `WORD`/`ULONG` arithmetic that can wrap is modelled with an
explicit `% 2 ^ 16` / `% 2 ^ 32`.  External collaborators that are not part
of the source (the allocator, `IsCharFullWidth`, `IsSystemKey`,
`IsPauseKey`, the `WaitForMoreToRead` wait registration, the console-wide
flag word) are abstracted into an environment `Env`.
-/

set_option linter.unusedVariables false

namespace Terminal

/-- NTSTATUS values that originate in this core. -/
inductive Status where
  | success          -- STATUS_SUCCESS
  | integerOverflow  -- STATUS_INTEGER_OVERFLOW
  | noMemory         -- STATUS_NO_MEMORY
  | wait             -- CONSOLE_STATUS_WAIT
deriving DecidableEq

/-- KEY_EVENT_RECORD. -/
structure KeyEvent where
  keyDown : Bool          -- bKeyDown
  repeatCount : Nat       -- wRepeatCount (WORD)
  virtualKeyCode : Nat    -- wVirtualKeyCode (WORD)
  virtualScanCode : Nat   -- wVirtualScanCode (WORD)
  uChar : Nat             -- uChar.UnicodeChar (WCHAR)
  controlKeyState : Nat   -- dwControlKeyState (DWORD)
deriving DecidableEq

/-- MOUSE_EVENT_RECORD. -/
structure MouseEvent where
  posX : Int              -- dwMousePosition.X (SHORT)
  posY : Int              -- dwMousePosition.Y (SHORT)
  buttonState : Nat       -- dwButtonState (DWORD)
  controlKeyState : Nat   -- dwControlKeyState (DWORD)
  eventFlags : Nat        -- dwEventFlags (DWORD)
deriving DecidableEq

/-- INPUT_RECORD: tagged union over EventType. -/
inductive InputRecord where
  | key (k : KeyEvent)
  | mouse (m : MouseEvent)
  | windowBufferSize (x y : Int)
  | menu (commandId : Nat)
  | focus (setFocus : Bool)
deriving DecidableEq

instance : Inhabited InputRecord := ⟨.menu 0⟩

def MOUSE_MOVED : Nat := 0x0001
def NLS_IME_CONVERSION : Nat := 0x00800000
def ENABLE_PROCESSED_INPUT : Nat := 0x0001
def ENABLE_LINE_INPUT : Nat := 0x0002
def ENABLE_ECHO_INPUT : Nat := 0x0004
def ENABLE_MOUSE_INPUT : Nat := 0x0010
def VK_PAUSE : Nat := 0x13

/-- `EventType == KEY_EVENT`. -/
def isKeyRec : InputRecord → Bool
  | .key _ => true
  | _ => false

/-- External collaborators of the buffer, fixed for the duration of one call.
`allocOK` determinizes the allocator (`new BYTE[]`): a single flag covers
every allocation performed during one operation. -/
structure Env where
  fw : Nat → Bool              -- IsCharFullWidth (dbcs.h, external)
  allocOK : Bool               -- whether operator new succeeds
  inc : Nat                    -- INPUT_BUFFER_SIZE_INCREMENT
  defaultEvents : Nat          -- DEFAULT_NUMBER_OF_EVENTS
  waitStatus : Status          -- result of WaitForMoreToRead (external)
  flags : Nat                  -- g_ciConsoleInformation.Flags (external global)
  suspendedMask : Nat          -- CONSOLE_SUSPENDED
  outputSuspendedMask : Nat    -- CONSOLE_OUTPUT_SUSPENDED
  isSystemKey : Nat → Bool     -- IsSystemKey (external)
  isPauseKey : KeyEvent → Bool -- IsPauseKey (external)

/-- INPUT_INFORMATION.  `store` is the backing region (`size + 1` record
slots), `inPos`/`outPos` are `(In - First) / sizeof(INPUT_RECORD)` and
`(Out - First) / sizeof(INPUT_RECORD)`; `Last` corresponds to index
`size + 1`.  `waitEventSet` is the state of `InputWaitEvent`. -/
structure InputBuffer where
  store : List InputRecord
  size : Nat                   -- InputBufferSize
  inPos : Nat                  -- In
  outPos : Nat                 -- Out
  inputMode : Nat              -- InputMode
  waitEventSet : Bool          -- InputWaitEvent (manual-reset event)
deriving DecidableEq

/-- Structural well-formedness maintained by all operations. -/
def WF (b : InputBuffer) : Prop :=
  b.store.length = b.size + 1 ∧ b.inPos ≤ b.size ∧ b.outPos ≤ b.size

instance (b : InputBuffer) : Decidable (WF b) := by unfold WF; infer_instance

/-- Record slot read (`*(PINPUT_RECORD)ptr`). -/
def getRec (b : InputBuffer) (i : Nat) : InputRecord :=
  b.store.getD i default

/-- `[a, a+n)` sub-list of a store. -/
def slice (l : List α) (a n : Nat) : List α :=
  (l.drop a).take n

/-- `memmove` of a record list `xs` to slots `p, p+1, ...` (in-bounds writes
only; the source never writes out of bounds). -/
def writeAt : List α → Nat → List α → List α
  | l, _, [] => l
  | l, p, x :: xs => writeAt (l.set p x) (p + 1) xs

/-- INPUT_INFORMATION::GetNumberOfReadyEvents. -/
def countReady (b : InputBuffer) : Nat :=
  if b.inPos < b.outPos then (b.size + 1 - b.outPos) + b.inPos
  else b.inPos - b.outPos

/-- The queued records in read order (abstraction of the ring layout). -/
def toList (b : InputBuffer) : List InputRecord :=
  if b.inPos < b.outPos then
    slice b.store b.outPos (b.size + 1 - b.outPos) ++ slice b.store 0 b.inPos
  else
    slice b.store b.outPos (b.inPos - b.outPos)

/-- Free capacity (records that can still be stored without growth,
preserving the sentinel slot). -/
def freeSlots (b : InputBuffer) : Nat := b.size - countReady b

/-- The record-by-record copy loop of the non-Unicode (ANSI) read paths.
Arguments: queue start index, the character budget (`Length`), the records
available (`OldTransferLength`), the accumulated character count (the
source reuses `BufferLengthInBytes` for it).  Returns the copied records,
the records NOT consumed (the final `OldTransferLength`) and the final
character count. -/
def ansiCopy (fw : Nat → Bool) (store : List InputRecord) :
    Nat → Nat → Nat → Nat → List InputRecord × Nat × Nat
  | _idx, _budget, 0, chars => ([], 0, chars)
  | idx, budget, oldT + 1, chars =>
    if chars < budget then
      let r := store.getD idx default
      let chars2 := chars +
        (match r with
         | .key k => if fw k.uChar then 2 else 1
         | _ => 1)
      let rest := ansiCopy fw store (idx + 1) budget oldT chars2
      (r :: rest.1, rest.2.1, rest.2.2)
    else
      ([], oldT + 1, chars)

/-- Result of INPUT_INFORMATION::ReadBuffer. -/
structure ReadResult where
  status : Status
  records : List InputRecord   -- contents written to the destination
  eventsRead : Nat             -- *EventsRead
  resetWaitEvent : Bool        -- *ResetWaitEvent
  buf : InputBuffer
deriving DecidableEq

/-- INPUT_INFORMATION::ReadBuffer.  `Length` counts events.  In the
non-Unicode paths the source reuses `BufferLengthInBytes` as a character
counter compared directly against `Length`; that counter is threaded
through `ansiCopy`. -/
def readBuffer (env : Env) (b : InputBuffer) (Length : Nat)
    (Peek StreamRead Unicode : Bool) : ReadResult :=
  -- stream read: return one record and advance Out past it
  if StreamRead && isKeyRec (getRec b b.outPos) then
    let r := getRec b b.outPos
    let out1 := b.outPos + 1
    let out2 := if b.size + 1 = out1 then 0 else out1
    { status := .success, records := [r], eventsRead := 1,
      resetWaitEvent := decide (out2 = b.inPos), buf := { b with outPos := out2 } }
  else if b.inPos > b.outPos then
    -- contiguous layout: free | data | free
    let TransferLength := min Length (b.inPos - b.outPos)
    if !Unicode then
      let a := ansiCopy env.fw b.store b.outPos Length TransferLength 0
      let T := TransferLength - a.2.1
      let out2 := if Peek then b.outPos else b.outPos + T
      { status := .success, records := a.1, eventsRead := T,
        resetWaitEvent := decide (out2 = b.inPos), buf := { b with outPos := out2 } }
    else
      let recs := slice b.store b.outPos TransferLength
      let out2 := if Peek then b.outPos else b.outPos + TransferLength
      { status := .success, records := recs, eventsRead := TransferLength,
        resetWaitEvent := decide (out2 = b.inPos), buf := { b with outPos := out2 } }
  else
    -- wrapped layout: data | free | data — Out to Last, then First to In
    let T1 := min Length (b.size + 1 - b.outPos)
    if !Unicode then
      let a1 := ansiCopy env.fw b.store b.outPos Length T1 0
      let T1' := T1 - a1.2.1
      let chars1 := a1.2.2
      let outA :=
        if Peek then b.outPos
        else if b.outPos + T1' = b.size + 1 then 0 else b.outPos + T1'
      if chars1 ≥ Length then
        { status := .success, records := a1.1, eventsRead := T1',
          resetWaitEvent := decide (outA = b.inPos), buf := { b with outPos := outA } }
      else
        let Length2 := Length - chars1
        if Length2 = 0 then
          { status := .success, records := a1.1, eventsRead := T1',
            resetWaitEvent := decide (outA = b.inPos), buf := { b with outPos := outA } }
        else
          let T2cap := min Length2 b.inPos
          let a2 := ansiCopy env.fw b.store 0 Length2 T2cap 0
          let T2 := T2cap - a2.2.1
          let outB := if Peek then outA else T2
          { status := .success, records := a1.1 ++ a2.1, eventsRead := T1' + T2,
            resetWaitEvent := decide (outB = b.inPos), buf := { b with outPos := outB } }
    else
      let recs1 := slice b.store b.outPos T1
      let outA :=
        if Peek then b.outPos
        else if b.outPos + T1 = b.size + 1 then 0 else b.outPos + T1
      if T1 = Length then
        { status := .success, records := recs1, eventsRead := T1,
          resetWaitEvent := decide (outA = b.inPos), buf := { b with outPos := outA } }
      else
        let T2 := min (Length - T1) b.inPos
        let recs2 := slice b.store 0 T2
        let outB := if Peek then outA else T2
        { status := .success, records := recs1 ++ recs2, eventsRead := T1 + T2,
          resetWaitEvent := decide (outB = b.inPos), buf := { b with outPos := outB } }

/-- INPUT_INFORMATION::SetInputBufferSize.  The `SizeTMult` overflow check
is on 64-bit `size_t`; allocation is determinized by `env.allocOK`.  The
records are copied into the new store by a `Peek`/`Unicode` `ReadBuffer`
whose destination is the new store's prefix (fresh slots are modelled as
`default`). -/
def setInputBufferSize (env : Env) (b : InputBuffer) (Size : Nat) :
    Status × InputBuffer :=
  if 20 * (Size + 1) ≥ 2 ^ 64 then (.integerOverflow, b)
  else if !env.allocOK then (.noMemory, b)
  else
    let r := readBuffer env b Size true false true
    if r.status ≠ .success then (r.status, b)
    else
      let st2 := r.records ++ List.replicate (Size + 1 - r.records.length) default
      (.success,
       { store := st2, size := Size, inPos := r.eventsRead, outPos := 0,
         inputMode := b.inputMode, waitEventSet := b.waitEventSet })

/-- Index of the most-recently-written record
(`In == First ? Last - sizeof : In - sizeof`). -/
def lastIdx (b : InputBuffer) : Nat :=
  if b.inPos = 0 then b.size else b.inPos - 1

/-- The coalescing section at the top of INPUT_INFORMATION::WriteBuffer
(only reached when `Length == 1 && Out != In`).  Returns the updated buffer
when a coalescing rule matched, `none` on fall-through to the append path. -/
def tryCoalesce (env : Env) (b : InputBuffer) (ev : InputRecord) :
    Option InputBuffer :=
  match ev with
  | .mouse m =>
    if m.eventFlags = MOUSE_MOVED then
      match getRec b (lastIdx b) with
      | .mouse lm =>
        if lm.eventFlags = MOUSE_MOVED then
          let r2 : InputRecord := .mouse { lm with posX := m.posX, posY := m.posY }
          some { b with store := b.store.set (lastIdx b) r2 }
        else none
      | _ => none
    else none
  | .key k =>
    if k.keyDown then
      if env.fw k.uChar then none   -- full width char: do nothing
      else if k.controlKeyState &&& NLS_IME_CONVERSION ≠ 0 then
        match getRec b (lastIdx b) with
        | .key lk =>
          if lk.keyDown ∧ lk.uChar = k.uChar ∧
             lk.controlKeyState = k.controlKeyState then
            let r2 : InputRecord :=
              .key { lk with repeatCount := (lk.repeatCount + k.repeatCount) % 2 ^ 16 }
            some { b with store := b.store.set (lastIdx b) r2 }
          else none
        | _ => none
      else
        match getRec b (lastIdx b) with
        | .key lk =>
          if lk.keyDown ∧ lk.virtualScanCode = k.virtualScanCode ∧
             lk.uChar = k.uChar ∧ lk.controlKeyState = k.controlKeyState then
            let r2 : InputRecord :=
              .key { lk with repeatCount := (lk.repeatCount + k.repeatCount) % 2 ^ 16 }
            some { b with store := b.store.set (lastIdx b) r2 }
          else none
        | _ => none
    else none
  | _ => none

/-- The `OutPath` section of INPUT_INFORMATION::WriteBuffer (the
`In >= Out` placement, also entered by `goto OutPath` after a successful
resize).  `.inl st` is the early error return (buffer untouched), `.inr`
carries the buffer after the segment write together with the records
transferred. -/
def outPathStep (env : Env) (Length : Nat) (b : InputBuffer)
    (recs : List InputRecord) : Status ⊕ InputBuffer × Nat :=
  let seg : InputBuffer → Nat → InputBuffer × Nat := fun c T =>
    let st2 := writeAt c.store c.inPos (recs.take T)
    let in2 := if c.inPos + T = c.size + 1 then 0 else c.inPos + T
    ({ c with store := st2, inPos := in2 }, T)
  let blen := recs.length
  if b.size + 1 - b.inPos > blen then
    .inr (seg b blen)
  else if b.outPos = 0 ∧ b.inPos = b.size then
    -- buffer is totally full: grow, then place the whole remainder
    let g := setInputBufferSize env b ((b.size + Length + env.inc) % 2 ^ 32)
    if g.1 ≠ .success then .inl g.1
    else .inr (seg g.2 blen)
  else
    .inr (seg b ((b.size + 1 - b.inPos) - if b.outPos = 0 then 1 else 0))

/-- Result of INPUT_INFORMATION::WriteBuffer. -/
structure WriteResult where
  status : Status
  eventsWritten : Nat          -- *EventsWritten
  setWaitEvent : Bool          -- *SetWaitEvent
  buf : InputBuffer
deriving DecidableEq

/-- The `while (*EventsWritten < Length)` loop of WriteBuffer.  `mode = true`
enters directly at `OutPath` (the `goto` after a successful resize skips the
empty-buffer check).  `fuel` only bounds the recursion: every executed body
either returns or transfers at least one record, so the callers' fuel
(`2 * Length + 4`) is never exhausted; the fuel-0 value coincides with the
loop-exit value. -/
def writeLoop (env : Env) (Length : Nat) :
    Nat → Bool → InputBuffer → List InputRecord → Nat → Bool → WriteResult
  | 0, _, b, _recs, written, setWait =>
    { status := .success, eventsWritten := written, setWaitEvent := setWait, buf := b }
  | fuel + 1, true, b, recs, written, setWait =>
    match outPathStep env Length b recs with
    | .inl st =>
      { status := st, eventsWritten := written, setWaitEvent := setWait, buf := b }
    | .inr (b2, T) =>
      writeLoop env Length fuel false b2 (recs.drop T) (written + T) setWait
  | fuel + 1, false, b, recs, written, setWait =>
    if written ≥ Length then
      { status := .success, eventsWritten := written, setWaitEvent := setWait, buf := b }
    else if b.outPos > b.inPos then
      -- data | free | data: write from In to Out-1
      if b.outPos - b.inPos - 1 < recs.length then
        let g := setInputBufferSize env b ((b.size + Length + env.inc) % 2 ^ 32)
        if g.1 ≠ .success then
          let T := b.outPos - b.inPos - 1
          if T = 0 then
            { status := g.1, eventsWritten := written, setWaitEvent := setWait, buf := b }
          else
            let st2 := writeAt b.store b.inPos (recs.take T)
            writeLoop env Length fuel false { b with store := st2, inPos := b.inPos + T }
              (recs.drop T) (written + T) setWait
        else
          writeLoop env Length fuel true g.2 recs written setWait
      else
        let st2 := writeAt b.store b.inPos recs
        writeLoop env Length fuel false
          { b with store := st2, inPos := b.inPos + recs.length }
          [] (written + recs.length) setWait
    else
      -- free | data | free (or empty): check empty, then OutPath
      writeLoop env Length fuel true b recs written
        (setWait || decide (b.outPos = b.inPos))

/-- INPUT_INFORMATION::WriteBuffer. -/
def writeBuffer (env : Env) (b : InputBuffer) (recs : List InputRecord) :
    WriteResult :=
  let Length := recs.length
  if Length = 1 ∧ b.outPos ≠ b.inPos then
    match tryCoalesce env b (recs.getD 0 default) with
    | some b2 =>
      { status := .success, eventsWritten := 1, setWaitEvent := false, buf := b2 }
    | none => writeLoop env Length (2 * Length + 4) false b recs 0 false
  else
    writeLoop env Length (2 * Length + 4) false b recs 0 false

/-- INPUT_INFORMATION::PreprocessInput.  Strips unblock / pause key-down
events, threading `g_ciConsoleInformation.Flags`.  Returns the surviving
records and the updated flag word. -/
def preprocessInput (env : Env) (mode : Nat) :
    Nat → List InputRecord → List InputRecord × Nat
  | flags, [] => ([], flags)
  | flags, r :: rest =>
    match r with
    | .key k =>
      if k.keyDown then
        if flags &&& env.suspendedMask ≠ 0 ∧ env.isSystemKey k.virtualKeyCode = false then
          -- UnblockWriteConsole(CONSOLE_OUTPUT_SUSPENDED): clear the flag, drop the record
          preprocessInput env mode (flags &&& (0xFFFFFFFF ^^^ env.outputSuspendedMask)) rest
        else if mode &&& ENABLE_LINE_INPUT ≠ 0 ∧
                (k.virtualKeyCode = VK_PAUSE ∨ env.isPauseKey k = true) then
          preprocessInput env mode (flags ||| env.outputSuspendedMask) rest
        else
          let p := preprocessInput env mode flags rest
          (r :: p.1, p.2)
      else
        let p := preprocessInput env mode flags rest
        (r :: p.1, p.2)
    | _ =>
      let p := preprocessInput env mode flags rest
      (r :: p.1, p.2)

/-- INPUT_INFORMATION::WriteInputBuffer.  Returns the reported
`EventsWritten`, the buffer (with `InputWaitEvent` set when WriteBuffer
asked for it), and the updated global flag word.  WriteBuffer's status is
discarded by the source. -/
def writeInputBuffer (env : Env) (b : InputBuffer) (recs : List InputRecord) :
    Nat × InputBuffer × Nat :=
  let p := preprocessInput env b.inputMode env.flags recs
  if p.1.length = 0 then (0, b, p.2)
  else
    let w := writeBuffer env b p.1
    let b2 := if w.setWaitEvent then { w.buf with waitEventSet := true } else w.buf
    (w.eventsWritten, b2, p.2)

/-- Result of INPUT_INFORMATION::ReadInputBuffer. -/
structure ReadInputResult where
  status : Status
  records : List InputRecord
  length : Nat                 -- *pcLength on return
  buf : InputBuffer
deriving DecidableEq

/-- INPUT_INFORMATION::ReadInputBuffer.  When the buffer is empty and
`fWaitForData` holds, the wait registration is modelled from the spec:
WaitForMoreToRead (not in src/) suspends the reader (CONSOLE_STATUS_WAIT) or
fails; either way this call returns zero records with that status (the
per-handle read count it adjusts is external state, not modelled). -/
def readInputBuffer (env : Env) (b : InputBuffer) (len : Nat)
    (peek waitForData stream unicode : Bool) : ReadInputResult :=
  if b.inPos = b.outPos ∧ (!waitForData || env.waitStatus ≠ .success) then
    if !waitForData then { status := .success, records := [], length := 0, buf := b }
    else { status := env.waitStatus, records := [], length := 0, buf := b }
  else
    let r := readBuffer env b len peek stream unicode
    let b2 := if r.resetWaitEvent then { r.buf with waitEventSet := false } else r.buf
    { status := r.status, records := r.records, length := r.eventsRead, buf := b2 }

/-- INPUT_INFORMATION::FlushInputBuffer. -/
def flushInputBuffer (b : InputBuffer) : InputBuffer :=
  { b with inPos := 0, outPos := 0, waitEventSet := false }

/-- The key-filtering copy loop of FlushAllButKeys: walk the scratch copy,
re-append key records from slot 0 on, stopping at `limit = size - 1`
(`InPtr >= InputBuffer + InputBufferSize - 1`). -/
def flushCopy : List InputRecord → List InputRecord → Nat → Nat →
    List InputRecord × Nat
  | store, [], idx, _limit => (store, idx)
  | store, t :: rest, idx, limit =>
    if idx ≥ limit then (store, idx)
    else
      match t with
      | .key _ => flushCopy (store.set idx t) rest (idx + 1) limit
      | _ => flushCopy store rest idx limit

/-- INPUT_INFORMATION::FlushAllButKeys.  The scratch buffer
(`DWordMult` 32-bit overflow check, then allocation) receives all queued
records via a Peek/Unicode ReadBuffer; key events are then compacted back. -/
def flushAllButKeys (env : Env) (b : InputBuffer) : Status × InputBuffer :=
  if b.inPos ≠ b.outPos then
    if 20 * (b.size + 1) ≥ 2 ^ 32 then (.integerOverflow, b)
    else if !env.allocOK then (.noMemory, b)
    else
      let r := readBuffer env b b.size true false true
      if r.status ≠ .success then (r.status, b)
      else
        let b1 := { r.buf with outPos := 0 }
        let c := flushCopy b1.store r.records 0 (b.size - 1)
        let we := if c.2 = 0 then false else b1.waitEventSet
        (.success, { b1 with store := c.1, inPos := c.2, waitEventSet := we })
  else (.success, b)

/-- Result of INPUT_INFORMATION::PrependInputBuffer. -/
structure PrependResult where
  status : Status
  length : Nat                 -- *pcLength on return
  buf : InputBuffer
  flags : Nat
deriving DecidableEq

/-- INPUT_INFORMATION::PrependInputBuffer.  Reads out the queued records
(non-peek), writes the new records, re-writes the saved records; both
sub-writes' statuses and counts are discarded and the preprocessed count is
reported. -/
def prependInputBuffer (env : Env) (b : InputBuffer) (recs : List InputRecord) :
    PrependResult :=
  let p := preprocessInput env b.inputMode env.flags recs
  if p.1.length = 0 then
    { status := .success, length := recs.length, buf := b, flags := p.2 }
  else
    let numExisting := countReady b
    if numExisting ≠ 0 then
      if 20 * numExisting ≥ 2 ^ 32 then
        { status := .integerOverflow, length := recs.length, buf := b, flags := p.2 }
      else if !env.allocOK then
        { status := .noMemory, length := recs.length, buf := b, flags := p.2 }
      else
        let r := readBuffer env b numExisting false false true
        if r.status ≠ .success then
          { status := r.status, length := recs.length, buf := b, flags := p.2 }
        else
          let w1 := writeBuffer env r.buf p.1
          let w2 := writeBuffer env w1.buf r.records
          let b2 := if w1.setWaitEvent then { w2.buf with waitEventSet := true }
                    else w2.buf
          { status := .success, length := p.1.length, buf := b2, flags := p.2 }
    else
      let w1 := writeBuffer env b p.1
      let b2 := if w1.setWaitEvent then { w1.buf with waitEventSet := true }
                else w1.buf
      { status := .success, length := p.1.length, buf := b2, flags := p.2 }

/-- INPUT_INFORMATION::INPUT_INFORMATION (the constructor): default size on
zero or on 32-bit overflow of the size computation; fresh store contents
are modelled as `default`; the wait event starts unset. -/
def createInputBuffer (env : Env) (cEvents0 : Nat) : InputBuffer :=
  let c1 := if cEvents0 = 0 then env.defaultEvents else cEvents0
  let c2 := if c1 + 1 ≥ 2 ^ 32 ∨ 20 * (c1 + 1) ≥ 2 ^ 32 then env.defaultEvents else c1
  { store := List.replicate (c2 + 1) default, size := c2, inPos := 0, outPos := 0,
    inputMode := ENABLE_LINE_INPUT ||| ENABLE_PROCESSED_INPUT |||
                 ENABLE_ECHO_INPUT ||| ENABLE_MOUSE_INPUT,
    waitEventSet := false }

/-- The public operations, for invariant statements. -/
inductive Op where
  | write (recs : List InputRecord)
  | read (len : Nat) (peek waitForData stream unicode : Bool)
  | flush
  | flushKeep                           -- FlushAllButKeys

/-- Buffer component of one public operation. -/
def step (env : Env) (b : InputBuffer) : Op → InputBuffer
  | .write recs => (writeInputBuffer env b recs).2.1
  | .read len peek waitForData stream unicode =>
    (readInputBuffer env b len peek waitForData stream unicode).buf
  | .flush => flushInputBuffer b
  | .flushKeep => (flushAllButKeys env b).2

/-- Record count a public operation feeds to the growth arithmetic. -/
def opLen : Op → Nat
  | .write recs => recs.length
  | _ => 0

/-- The wait-signal invariant: `InputWaitEvent` is set iff records are
buffered. -/
def SignalInv (b : InputBuffer) : Prop :=
  b.waitEventSet = true ↔ 0 < countReady b

instance (b : InputBuffer) : Decidable (SignalInv b) := by
  unfold SignalInv
  infer_instance

/-- The coalescing-eligibility relation of WriteBuffer: `cur`, written with
count 1 immediately after `prev`, would be merged into `prev`. -/
def coalescible (fw : Nat → Bool) (prev cur : InputRecord) : Bool :=
  match cur, prev with
  | .mouse m, .mouse lm =>
    decide (m.eventFlags = MOUSE_MOVED) && decide (lm.eventFlags = MOUSE_MOVED)
  | .key k, .key lk =>
    k.keyDown && !(fw k.uChar) &&
    (if k.controlKeyState &&& NLS_IME_CONVERSION ≠ 0 then
       lk.keyDown && decide (lk.uChar = k.uChar) &&
         decide (lk.controlKeyState = k.controlKeyState)
     else
       lk.keyDown && decide (lk.virtualScanCode = k.virtualScanCode) &&
         decide (lk.uChar = k.uChar) &&
         decide (lk.controlKeyState = k.controlKeyState))
  | _, _ => false

/-- A sequence of WriteBuffer calls. -/
def writeSeq (env : Env) : InputBuffer → List (List InputRecord) → InputBuffer
  | b, [] => b
  | b, ws :: rest => writeSeq env (writeBuffer env b ws).buf rest

/-- A sequence of non-peek Unicode ReadBuffer calls; returns all delivered
records in order. -/
def readSeq (env : Env) : InputBuffer → List Nat → List InputRecord × InputBuffer
  | b, [] => ([], b)
  | b, n :: rest =>
    let r := readBuffer env b n false false true
    let s := readSeq env r.buf rest
    (r.records ++ s.1, s.2)

/-- Read requests that consume exactly `rem` buffered records without ever
over-draining an empty buffer. -/
def lensOK : Nat → List Nat → Prop
  | rem, [] => rem = 0
  | rem, n :: rest => n ≤ rem ∧ lensOK (rem - n) rest

instance (rem : Nat) (l : List Nat) : Decidable (lensOK rem l) := by
  induction l generalizing rem with
  | nil => unfold lensOK; infer_instance
  | cons n rest ih => unfold lensOK; exact @instDecidableAnd _ _ _ (ih _)

/-! ### VtEngine invalidation (invalidate.cpp) -/

/-- An exclusive character rectangle (SMALL_RECT in VtEngine's exclusive
convention). -/
structure ExRect where
  left : Int
  top : Int
  right : Int
  bottom : Int
deriving DecidableEq

/-- Modelled from the spec: `Viewport::OrViewports` (Microsoft::Console::Types,
not in src/) — the smallest rectangle covering both arguments. -/
def orRect (a b : ExRect) : ExRect :=
  ⟨min a.left b.left, min a.top b.top, max a.right b.right, max a.bottom b.bottom⟩

/-- Modelled from the spec: `Viewport::ToOrigin` (not in src/) — the same
dimensions translated to the origin. -/
def toOrigin (v : ExRect) : ExRect :=
  ⟨0, 0, v.right - v.left, v.bottom - v.top⟩

/-- Modelled from the spec: `Viewport::TrimToViewport` (not in src/) — the
rectangle truncated (never discarded) to the viewport's bounds. -/
def trimToViewport (v r : ExRect) : ExRect :=
  ⟨max r.left v.left, max r.top v.top, min r.right v.right, min r.bottom v.bottom⟩

/-- The VtEngine state the invalidation helpers touch. -/
structure VtEngineState where
  invalidRect : ExRect         -- _invalidRect
  fInvalidRectUsed : Bool      -- _fInvalidRectUsed
  lastViewport : ExRect        -- _lastViewport
deriving DecidableEq

/-- VtEngine::_InvalidRestrict. -/
def invalidRestrict (s : VtEngineState) : VtEngineState :=
  { s with invalidRect := trimToViewport (toOrigin s.lastViewport) s.invalidRect }

/-- VtEngine::_InvalidCombine. -/
def invalidCombine (s : VtEngineState) (invalid : ExRect) : VtEngineState :=
  let s2 :=
    if !s.fInvalidRectUsed then
      { s with invalidRect := invalid, fInvalidRectUsed := true }
    else
      { s with invalidRect := orRect s.invalidRect invalid }
  invalidRestrict s2

/-- VtEngine::Invalidate (FromExclusive is the identity on the exclusive
rectangle model). -/
def vtInvalidate (s : VtEngineState) (region : ExRect) : VtEngineState :=
  invalidCombine s region

/-! ### Concrete instances for evaluation -/

/-- A concrete environment: half-width characters only, a working allocator,
growth increment 10, and an external wait that suspends the caller. -/
def envStd : Env :=
  { fw := fun _ => false, allocOK := true, inc := 10, defaultEvents := 50,
    waitStatus := .wait, flags := 0, suspendedMask := 2, outputSuspendedMask := 2,
    isSystemKey := fun _ => false, isPauseKey := fun _ => false }

/-- The same environment with a failing allocator. -/
def envNoMem : Env := { envStd with allocOK := false }

/-- Sample key-down records (distinct keys, repeat count 1). -/
def kRecA : InputRecord := .key ⟨true, 1, 65, 30, 97, 0⟩

def kRecB : InputRecord := .key ⟨true, 1, 66, 48, 98, 0⟩

def kRecC : InputRecord := .key ⟨true, 1, 67, 46, 99, 0⟩

/-- The key of `kRecA` with repeat count 3. -/
def kRec3 : InputRecord := .key ⟨true, 3, 65, 30, 97, 0⟩

/-- A mouse-movement record at position `(x, y)`. -/
def mouseMove (x y : Int) : InputRecord := .mouse ⟨x, y, 0, 0, MOUSE_MOVED⟩

/-- A capacity-2 buffer holding one queued mouse-move record. -/
def bMouse : InputBuffer :=
  { store := [mouseMove 5 5, .menu 0, .menu 0], size := 2, inPos := 1,
    outPos := 0, inputMode := 0, waitEventSet := true }

/-- A capacity-2 buffer holding the queued key record `kRecA`. -/
def bKeyA : InputBuffer :=
  { store := [kRecA, .menu 0, .menu 0], size := 2, inPos := 1, outPos := 0,
    inputMode := 0, waitEventSet := true }

/-- A capacity-2 buffer holding `kRecA`'s key with repeat count 3. -/
def bKey3 : InputBuffer :=
  { store := [kRec3, .menu 0, .menu 0], size := 2, inPos := 1, outPos := 0,
    inputMode := 0, waitEventSet := true }

/-- A capacity-2 buffer holding `kRecA`'s key with the maximal WORD repeat
count 65535. -/
def bKeyMax : InputBuffer :=
  { store := [.key ⟨true, 65535, 65, 30, 97, 0⟩, .menu 0, .menu 0], size := 2,
    inPos := 1, outPos := 0, inputMode := 0, waitEventSet := true }

/-- A full capacity-2 buffer (two queued menu records, no free slot). -/
def bFullMenus : InputBuffer :=
  { store := [.menu 1, .menu 2, .menu 0], size := 2, inPos := 2, outPos := 0,
    inputMode := 0, waitEventSet := true }

/-! ### List toolkit -/

theorem slice_len (l : List α) (a n : Nat) :
    (slice l a n).length = min n (l.length - a) := by
  simp [slice]

theorem slice_zero (l : List α) (a : Nat) : slice l a 0 = [] := by
  simp [slice]

theorem slice_take (l : List α) (a n m : Nat) :
    (slice l a n).take m = slice l a (min m n) := by
  simp [slice, List.take_take]

theorem slice_drop (l : List α) (a n m : Nat) :
    (slice l a n).drop m = slice l (a + m) (n - m) := by
  simp [slice, List.drop_take, List.drop_drop]

theorem slice_append (l : List α) (a n m : Nat) :
    slice l a n ++ slice l (a + n) m = slice l a (n + m) := by
  simp [slice, ← List.drop_drop]
  rw [← List.take_add]

theorem writeAt_len (xs : List α) (l : List α) (p : Nat) :
    (writeAt l p xs).length = l.length := by
  induction xs generalizing l p with
  | nil => rfl
  | cons x xs ih => simp [writeAt, ih]

theorem writeAt_eq (xs : List α) (l : List α) (p : Nat)
    (h : p + xs.length ≤ l.length) :
    writeAt l p xs = l.take p ++ xs ++ l.drop (p + xs.length) := by
  induction xs generalizing l p with
  | nil => simp [writeAt]
  | cons x xs ih =>
    have hp : p < l.length := by simp at h; omega
    simp only [writeAt]
    rw [ih (l.set p x) (p + 1) (by simp; simp at h; omega)]
    rw [List.set_eq_take_cons_drop x hp]
    have hlt : (l.take p).length = p := by
      simp [List.length_take]; omega
    have h1 : ((l.take p ++ x :: l.drop (p + 1)).take (p + 1)) = l.take p ++ [x] := by
      rw [List.take_append_eq_append_take, hlt]
      have : p + 1 - p = 1 := by omega
      rw [this]
      simp [List.take_take]
    have h2 : ((l.take p ++ x :: l.drop (p + 1)).drop (p + 1 + xs.length)) =
        l.drop (p + 1 + xs.length) := by
      rw [List.drop_append_eq_append_drop, hlt]
      have hz : p + 1 + xs.length - p = xs.length + 1 := by omega
      rw [hz]
      have : (l.take p).drop (p + 1 + xs.length) = [] := by
        apply List.drop_eq_nil_of_le
        rw [hlt]; omega
      rw [this]
      simp [List.drop_drop]
    rw [h1, h2]
    simp only [List.cons_append, List.append_assoc, List.singleton_append]
    have : p + 1 + xs.length = p + (xs.length + 1) := by omega
    rw [this]
    simp

theorem slice_append_left (u v : List α) (a n : Nat) (h : a + n ≤ u.length) :
    slice (u ++ v) a n = slice u a n := by
  simp only [slice, List.drop_append_eq_append_drop, List.take_append_eq_append_take]
  have h1 : n - (u.drop a).length = 0 := by simp [List.length_drop]; omega
  have h2 : a - u.length = 0 := by omega
  rw [h1, h2]
  simp

theorem slice_append_right (u v : List α) (a n : Nat) (h : u.length ≤ a) :
    slice (u ++ v) a n = slice v (a - u.length) n := by
  simp only [slice, List.drop_append_eq_append_drop]
  have h1 : u.drop a = [] := List.drop_eq_nil_of_le (by omega)
  rw [h1]
  simp

theorem slice_writeAt_before (l xs : List α) (p a n : Nat)
    (h1 : a + n ≤ p) (h2 : p + xs.length ≤ l.length) :
    slice (writeAt l p xs) a n = slice l a n := by
  rw [writeAt_eq _ _ _ h2, List.append_assoc,
      slice_append_left _ _ _ _ (by simp [List.length_take]; omega)]
  simp only [slice, List.drop_take, List.take_take]
  congr 1
  omega

theorem slice_writeAt_after (l xs : List α) (p a n : Nat)
    (h1 : p + xs.length ≤ a) (h2 : p + xs.length ≤ l.length) :
    slice (writeAt l p xs) a n = slice l a n := by
  have hp : p ≤ l.length := by omega
  rw [writeAt_eq _ _ _ h2]
  rw [slice_append_right (l.take p ++ xs) _ _ _
    (by rw [List.length_append, List.length_take, Nat.min_eq_left hp]; omega)]
  rw [List.length_append, List.length_take, Nat.min_eq_left hp]
  simp only [slice, List.drop_drop]
  congr 2
  omega

theorem slice_writeAt_self (l xs : List α) (p : Nat)
    (h2 : p + xs.length ≤ l.length) :
    slice (writeAt l p xs) p xs.length = xs := by
  have hp : p ≤ l.length := by omega
  rw [writeAt_eq _ _ _ h2, List.append_assoc]
  rw [slice_append_right _ _ _ _ (by rw [List.length_take, Nat.min_eq_left hp])]
  rw [List.length_take, Nat.min_eq_left hp, Nat.sub_self]
  rw [slice_append_left _ _ _ _ (by omega)]
  simp [slice]

theorem toList_len (b : InputBuffer) (hwf : WF b) :
    (toList b).length = countReady b := by
  obtain ⟨h1, h2, h3⟩ := hwf
  unfold toList countReady
  split <;> simp [slice_len, h1] <;> omega

theorem countReady_le_size (b : InputBuffer) (hwf : WF b) :
    countReady b ≤ b.size := by
  obtain ⟨h1, h2, h3⟩ := hwf
  unfold countReady
  split <;> omega

theorem countReady_zero_iff (b : InputBuffer) (hwf : WF b) :
    countReady b = 0 ↔ b.inPos = b.outPos := by
  obtain ⟨h1, h2, h3⟩ := hwf
  unfold countReady
  split <;> omega

/-! ### ReadBuffer in Unicode mode -/

theorem readBuffer_unicode_contig (env : Env) (b : InputBuffer) (Length : Nat)
    (Peek : Bool)
    (h1 : b.store.length = b.size + 1) (h2 : b.inPos ≤ b.size) (h3 : b.outPos ≤ b.size)
    (hc : b.outPos < b.inPos) :
    readBuffer env b Length Peek false true =
      { status := .success,
        records := (toList b).take Length,
        eventsRead := min Length (countReady b),
        resetWaitEvent := decide (Peek = false ∧ countReady b ≤ Length),
        buf := { b with outPos := if Peek then b.outPos
                 else b.outPos + min Length (countReady b) } } := by
  have hs : ¬ b.inPos < b.outPos := by omega
  have hcount : countReady b = b.inPos - b.outPos := by
    unfold countReady; rw [if_neg hs]
  have htl : toList b = slice b.store b.outPos (b.inPos - b.outPos) := by
    unfold toList; rw [if_neg hs]
  unfold readBuffer
  simp only [Bool.false_and, Bool.false_eq_true, if_false, Bool.not_true]
  rw [if_pos (show b.inPos > b.outPos from hc)]
  simp only [ReadResult.mk.injEq]
  refine ⟨trivial, ?_, ?_, ?_, ?_⟩
  · rw [htl, slice_take]
  · rw [hcount]
  · rw [hcount, decide_eq_decide]
    cases Peek <;> simp <;> omega
  · rw [hcount]

theorem readBuffer_unicode_wrapped (env : Env) (b : InputBuffer) (Length : Nat)
    (Peek : Bool)
    (h1 : b.store.length = b.size + 1) (h2 : b.inPos ≤ b.size) (h3 : b.outPos ≤ b.size)
    (hc : b.inPos < b.outPos) :
    readBuffer env b Length Peek false true =
      { status := .success,
        records := (toList b).take Length,
        eventsRead := min Length (countReady b),
        resetWaitEvent := decide (Peek = false ∧ countReady b ≤ Length),
        buf := { b with outPos := if Peek then b.outPos
                 else (b.outPos + min Length (countReady b)) % (b.size + 1) } } := by
  have hng : ¬ b.inPos > b.outPos := by omega
  have hcount : countReady b = (b.size + 1 - b.outPos) + b.inPos := by
    unfold countReady; rw [if_pos hc]
  have htl : toList b =
      slice b.store b.outPos (b.size + 1 - b.outPos) ++ slice b.store 0 b.inPos := by
    unfold toList; rw [if_pos hc]
  have hlen1 : (slice b.store b.outPos (b.size + 1 - b.outPos)).length =
      b.size + 1 - b.outPos := by
    rw [slice_len, h1]; omega
  unfold readBuffer
  simp only [Bool.false_and, Bool.false_eq_true, if_false, Bool.not_true]
  rw [if_neg hng]
  by_cases hT : min Length (b.size + 1 - b.outPos) = Length
  · rw [if_pos hT]
    simp only [ReadResult.mk.injEq]
    refine ⟨trivial, ?_, ?_, ?_, ?_⟩
    · rw [htl, List.take_append_eq_append_take, hlen1, hT]
      have hz : Length - (b.size + 1 - b.outPos) = 0 := by omega
      rw [hz, slice_take]
      have : min Length (b.size + 1 - b.outPos) = Length := hT
      rw [this]
      simp
    · rw [hcount]; omega
    · rw [hcount, decide_eq_decide]
      cases Peek with
      | false =>
        simp only [Bool.false_eq_true, if_false, eq_self_iff_true, true_and]
        constructor
        · intro hx
          split at hx <;> omega
        · intro hx
          split <;> omega
      | true => simp; omega
    · rw [hcount]
      cases Peek with
      | false =>
        simp only [Bool.false_eq_true, if_false, InputBuffer.mk.injEq]
        have hmin : min Length ((b.size + 1 - b.outPos) + b.inPos) = Length := by omega
        rw [hmin]
        split
        · rename_i hx
          have : b.outPos + Length = b.size + 1 := by omega
          rw [this, Nat.mod_self]
          simp
        · rename_i hx
          have : b.outPos + Length < b.size + 1 := by omega
          rw [Nat.mod_eq_of_lt this]
          simp
          omega
      | true => simp
  · rw [if_neg hT]
    have hT1 : min Length (b.size + 1 - b.outPos) = b.size + 1 - b.outPos := by omega
    rw [hT1]
    simp only [ReadResult.mk.injEq]
    refine ⟨trivial, ?_, ?_, ?_, ?_⟩
    · rw [htl, List.take_append_eq_append_take, hlen1]
      simp only [slice_take]
      congr 2
      omega
    · rw [hcount]; omega
    · rw [hcount, decide_eq_decide]
      cases Peek <;> simp <;> omega
    · rw [hcount]
      cases Peek with
      | false =>
        simp only [Bool.false_eq_true, if_false, InputBuffer.mk.injEq]
        have hsplit : b.outPos + min Length ((b.size + 1 - b.outPos) + b.inPos) =
            (b.size + 1) + min (Length - (b.size + 1 - b.outPos)) b.inPos := by omega
        rw [hsplit, Nat.add_mod_left, Nat.mod_eq_of_lt (by omega)]
        simp
      | true => simp

/-- ReadBuffer, Unicode mode, on a non-empty buffer: the delivered records
are the first `Length` queued records; unless peeking, `Out` advances past
them (wrapping at `Last`); the wait event is to be reset exactly when the
buffer was drained. -/
theorem readBuffer_unicode (env : Env) (b : InputBuffer) (Length : Nat)
    (Peek : Bool) (hwf : WF b) (hne : b.inPos ≠ b.outPos) :
    readBuffer env b Length Peek false true =
      { status := .success,
        records := (toList b).take Length,
        eventsRead := min Length (countReady b),
        resetWaitEvent := decide (Peek = false ∧ countReady b ≤ Length),
        buf := { b with outPos := if Peek then b.outPos
                 else (b.outPos + min Length (countReady b)) % (b.size + 1) } } := by
  obtain ⟨h1, h2, h3⟩ := hwf
  rcases Nat.lt_or_ge b.outPos b.inPos with hlt | hge
  · have hcnt : countReady b = b.inPos - b.outPos := by
      unfold countReady; rw [if_neg (by omega)]
    have hx : (b.outPos + min Length (countReady b)) % (b.size + 1) =
        b.outPos + min Length (countReady b) :=
      Nat.mod_eq_of_lt (by rw [hcnt]; omega)
    rw [readBuffer_unicode_contig env b Length Peek h1 h2 h3 hlt, hx]
  · have hlt2 : b.inPos < b.outPos := by omega
    exact readBuffer_unicode_wrapped env b Length Peek h1 h2 h3 hlt2

/-- Advancing `Out` by `c ≤ countReady` records drops the first `c` queued
records. -/
theorem toList_readAdvance (b : InputBuffer) (c : Nat)
    (h1 : b.store.length = b.size + 1) (h2 : b.inPos ≤ b.size)
    (h3 : b.outPos ≤ b.size) (hc : c ≤ countReady b) :
    toList { b with outPos := (b.outPos + c) % (b.size + 1) } = (toList b).drop c := by
  by_cases hlay : b.inPos < b.outPos
  · have hcnt : countReady b = (b.size + 1 - b.outPos) + b.inPos := by
      unfold countReady; rw [if_pos hlay]
    rw [hcnt] at hc
    have hlen1 : (slice b.store b.outPos (b.size + 1 - b.outPos)).length =
        b.size + 1 - b.outPos := by rw [slice_len, h1]; omega
    by_cases hcase : b.outPos + c < b.size + 1
    · rw [Nat.mod_eq_of_lt hcase]
      unfold toList
      simp only
      rw [if_pos hlay]
      by_cases hlay2 : b.inPos < b.outPos + c
      · rw [if_pos hlay2, List.drop_append_eq_append_drop, hlen1]
        have hz : c - (b.size + 1 - b.outPos) = 0 := by omega
        rw [hz, slice_drop]
        simp only [List.drop_zero]
        congr 2
        omega
      · -- c wraps exactly to a position at or before inPos: impossible here
        -- since outPos + c < size + 1 and inPos < outPos ≤ outPos + c
        omega
    · have h2c : b.outPos + c = (b.size + 1) + (c - (b.size + 1 - b.outPos)) := by
        omega
      rw [h2c, Nat.add_mod_left, Nat.mod_eq_of_lt (by omega)]
      unfold toList
      simp only
      rw [if_pos hlay, if_neg (by omega)]
      rw [List.drop_append_eq_append_drop, hlen1]
      have hu : (slice b.store b.outPos (b.size + 1 - b.outPos)).drop c = [] := by
        apply List.drop_eq_nil_of_le
        rw [hlen1]; omega
      rw [hu, slice_drop]
      simp only [List.nil_append, Nat.zero_add]
  · have hcnt : countReady b = b.inPos - b.outPos := by
      unfold countReady; rw [if_neg hlay]
    rw [hcnt] at hc
    rw [Nat.mod_eq_of_lt (by omega)]
    unfold toList
    simp only
    rw [if_neg hlay, if_neg (by omega), slice_drop]
    congr 1
    omega

/-- The stream-read branch of ReadBuffer: when the next queued record is a
key event, exactly that record is copied out and `Out` advances past it. -/
theorem readBuffer_stream (env : Env) (b : InputBuffer) (Length : Nat)
    (Peek Unicode : Bool) (hkey : isKeyRec (getRec b b.outPos) = true) :
    readBuffer env b Length Peek true Unicode =
      { status := .success, records := [getRec b b.outPos], eventsRead := 1,
        resetWaitEvent :=
          decide ((if b.size + 1 = b.outPos + 1 then 0 else b.outPos + 1) = b.inPos),
        buf := { b with outPos :=
          if b.size + 1 = b.outPos + 1 then 0 else b.outPos + 1 } } := by
  unfold readBuffer
  rw [if_pos (by rw [hkey]; rfl)]

/-- SetInputBufferSize on a non-empty buffer with room for all queued
records: the queued records land in a contiguous prefix of the new store. -/
theorem setInputBufferSize_spec (env : Env) (b : InputBuffer) (Size : Nat)
    (hwf : WF b) (hne : b.inPos ≠ b.outPos) (hS : countReady b ≤ Size)
    (hov : 20 * (Size + 1) < 2 ^ 64) (hal : env.allocOK = true) :
    setInputBufferSize env b Size =
      (.success,
       { store := toList b ++ List.replicate (Size + 1 - countReady b) default,
         size := Size, inPos := countReady b, outPos := 0,
         inputMode := b.inputMode, waitEventSet := b.waitEventSet }) := by
  have htake : (toList b).take Size = toList b :=
    List.take_of_length_le (by rw [toList_len b hwf]; omega)
  unfold setInputBufferSize
  rw [if_neg (by omega), hal]
  simp only [Bool.not_true, Bool.false_eq_true, if_false]
  rw [readBuffer_unicode env b Size true hwf hne]
  simp only [ne_eq, not_true_eq_false, if_false, htake]
  have hmin : min Size (countReady b) = countReady b := by omega
  rw [hmin, toList_len b hwf]

/-! ### Segment writes of WriteBuffer -/

/-- Writing `xs` at `In` inside the free gap of a wrapped buffer
(`data | free | data`) appends `xs` to the queued records. -/
theorem toList_write_wrapped (b : InputBuffer) (xs : List InputRecord)
    (h1 : b.store.length = b.size + 1) (h2 : b.inPos ≤ b.size)
    (h3 : b.outPos ≤ b.size) (hlay : b.inPos < b.outPos)
    (hfit : b.inPos + xs.length < b.outPos) :
    toList { b with store := writeAt b.store b.inPos xs, inPos := b.inPos + xs.length } = toList b ++ xs := by
  have hb : b.inPos + xs.length ≤ b.store.length := by omega
  unfold toList
  simp only
  rw [if_pos hlay, if_pos (show b.inPos + xs.length < b.outPos from hfit)]
  rw [slice_writeAt_after b.store xs b.inPos b.outPos _ (by omega) hb]
  have hsplit := (slice_append (writeAt b.store b.inPos xs) 0 b.inPos xs.length).symm
  rw [Nat.zero_add] at hsplit
  rw [hsplit, slice_writeAt_before b.store xs b.inPos 0 b.inPos (by omega) hb,
      slice_writeAt_self b.store xs b.inPos hb, List.append_assoc]

/-- Writing `xs` at `In` in the `In >= Out` layout (the OutPath placement),
wrapping `In` to `First` when it reaches `Last`, appends `xs` to the queued
records.  When `Out = First` the write must stop one slot short of `Last`
(the sentinel). -/
theorem toList_write_outpath (b : InputBuffer) (xs : List InputRecord)
    (h1 : b.store.length = b.size + 1) (h2 : b.inPos ≤ b.size)
    (h3 : b.outPos ≤ b.size) (hlay : b.outPos ≤ b.inPos)
    (hfit : b.inPos + xs.length ≤ b.size + 1)
    (hsent : b.outPos = 0 → b.inPos + xs.length ≤ b.size) :
    toList { b with store := writeAt b.store b.inPos xs, inPos := if b.inPos + xs.length = b.size + 1 then 0 else b.inPos + xs.length } = toList b ++ xs := by
  have hb : b.inPos + xs.length ≤ b.store.length := by omega
  unfold toList
  simp only
  rw [if_neg (show ¬ b.inPos < b.outPos by omega)]
  by_cases hw : b.inPos + xs.length = b.size + 1
  · have ho : 0 < b.outPos := by
      rcases Nat.eq_zero_or_pos b.outPos with h0 | h0
      · exfalso; have := hsent h0; omega
      · exact h0
    rw [if_pos hw, if_pos (show (0:Nat) < b.outPos from ho)]
    have hn : b.size + 1 - b.outPos = (b.inPos - b.outPos) + xs.length := by omega
    rw [hn, ← slice_append]
    have hin : b.outPos + (b.inPos - b.outPos) = b.inPos := by omega
    rw [hin, slice_writeAt_before b.store xs b.inPos b.outPos _ (by omega) hb,
        slice_writeAt_self b.store xs b.inPos hb]
    simp [slice_zero]
  · rw [if_neg hw, if_neg (show ¬ b.inPos + xs.length < b.outPos by omega)]
    have hn : b.inPos + xs.length - b.outPos = (b.inPos - b.outPos) + xs.length := by
      omega
    rw [hn, ← slice_append]
    have hin : b.outPos + (b.inPos - b.outPos) = b.inPos := by omega
    rw [hin, slice_writeAt_before b.store xs b.inPos b.outPos _ (by omega) hb,
        slice_writeAt_self b.store xs b.inPos hb]

/-! ### WriteBuffer loop: step equations -/

theorem writeLoop_done (env : Env) (Length : Nat) (fuel : Nat) (b : InputBuffer)
    (written : Nat) (setWait : Bool) (h : Length ≤ written) :
    writeLoop env Length fuel false b [] written setWait =
      { status := .success, eventsWritten := written,
        setWaitEvent := setWait, buf := b } := by
  cases fuel with
  | zero => rfl
  | succ f => simp only [writeLoop]; rw [if_pos h]

theorem writeLoop_step_return (env : Env) (Length f : Nat) (b : InputBuffer)
    (recs : List InputRecord) (written : Nat) (setWait : Bool)
    (h : Length ≤ written) :
    writeLoop env Length (f + 1) false b recs written setWait =
      { status := .success, eventsWritten := written,
        setWaitEvent := setWait, buf := b } := by
  simp only [writeLoop]; rw [if_pos h]

theorem writeLoop_step_wfit (env : Env) (Length f : Nat) (b : InputBuffer)
    (recs : List InputRecord) (written : Nat) (setWait : Bool)
    (h0 : ¬ Length ≤ written) (h1 : b.inPos < b.outPos)
    (h2 : ¬ (b.outPos - b.inPos - 1 < recs.length)) :
    writeLoop env Length (f + 1) false b recs written setWait =
      writeLoop env Length f false
        { b with store := writeAt b.store b.inPos recs, inPos := b.inPos + recs.length }
        [] (written + recs.length) setWait := by
  simp only [writeLoop]
  rw [if_neg h0, if_pos h1, if_neg h2]

theorem writeLoop_step_wgrow_ok (env : Env) (Length f : Nat) (b : InputBuffer)
    (recs : List InputRecord) (written : Nat) (setWait : Bool)
    (h0 : ¬ Length ≤ written) (h1 : b.inPos < b.outPos)
    (h2 : b.outPos - b.inPos - 1 < recs.length)
    (hg : (setInputBufferSize env b ((b.size + Length + env.inc) % 2 ^ 32)).1 =
      .success) :
    writeLoop env Length (f + 1) false b recs written setWait =
      writeLoop env Length f true
        (setInputBufferSize env b ((b.size + Length + env.inc) % 2 ^ 32)).2
        recs written setWait := by
  simp only [writeLoop]
  rw [if_neg h0, if_pos h1, if_pos h2, if_neg (by rw [hg]; exact fun hx => hx rfl)]

theorem writeLoop_step_wgrow_fail_zero (env : Env) (Length f : Nat)
    (b : InputBuffer) (recs : List InputRecord) (written : Nat) (setWait : Bool)
    (h0 : ¬ Length ≤ written) (h1 : b.inPos < b.outPos)
    (h2 : b.outPos - b.inPos - 1 < recs.length)
    (hg : (setInputBufferSize env b ((b.size + Length + env.inc) % 2 ^ 32)).1 ≠
      .success)
    (hT : b.outPos - b.inPos - 1 = 0) :
    writeLoop env Length (f + 1) false b recs written setWait =
      { status := (setInputBufferSize env b ((b.size + Length + env.inc) % 2 ^ 32)).1,
        eventsWritten := written, setWaitEvent := setWait, buf := b } := by
  simp only [writeLoop]
  rw [if_neg h0, if_pos h1, if_pos h2, if_pos hg, if_pos hT]

theorem writeLoop_step_wgrow_fail_part (env : Env) (Length f : Nat)
    (b : InputBuffer) (recs : List InputRecord) (written : Nat) (setWait : Bool)
    (h0 : ¬ Length ≤ written) (h1 : b.inPos < b.outPos)
    (h2 : b.outPos - b.inPos - 1 < recs.length)
    (hg : (setInputBufferSize env b ((b.size + Length + env.inc) % 2 ^ 32)).1 ≠
      .success)
    (hT : b.outPos - b.inPos - 1 ≠ 0) :
    writeLoop env Length (f + 1) false b recs written setWait =
      writeLoop env Length f false
        { b with store := writeAt b.store b.inPos (recs.take (b.outPos - b.inPos - 1)), inPos := b.inPos + (b.outPos - b.inPos - 1) }
        (recs.drop (b.outPos - b.inPos - 1))
        (written + (b.outPos - b.inPos - 1)) setWait := by
  simp only [writeLoop]
  rw [if_neg h0, if_pos h1, if_pos h2, if_pos hg, if_neg hT]

theorem writeLoop_step_toOutPath (env : Env) (Length f : Nat) (b : InputBuffer)
    (recs : List InputRecord) (written : Nat) (setWait : Bool)
    (h0 : ¬ Length ≤ written) (h1 : ¬ b.inPos < b.outPos) :
    writeLoop env Length (f + 1) false b recs written setWait =
      writeLoop env Length f true b recs written
        (setWait || decide (b.outPos = b.inPos)) := by
  simp only [writeLoop]
  rw [if_neg h0, if_neg h1]

theorem writeLoop_outpath_fit (env : Env) (Length f : Nat) (b : InputBuffer)
    (recs : List InputRecord) (written : Nat) (setWait : Bool)
    (h : recs.length < b.size + 1 - b.inPos) :
    writeLoop env Length (f + 1) true b recs written setWait =
      writeLoop env Length f false
        { b with store := writeAt b.store b.inPos recs, inPos := if b.inPos + recs.length = b.size + 1 then 0 else b.inPos + recs.length }
        [] (written + recs.length) setWait := by
  simp only [writeLoop, outPathStep]
  rw [if_pos h]
  simp [List.take_length]

theorem writeLoop_outpath_full_ok (env : Env) (Length f : Nat) (b : InputBuffer)
    (recs : List InputRecord) (written : Nat) (setWait : Bool)
    (h : ¬ recs.length < b.size + 1 - b.inPos)
    (hfull : b.outPos = 0 ∧ b.inPos = b.size)
    (hg : (setInputBufferSize env b ((b.size + Length + env.inc) % 2 ^ 32)).1 =
      .success)
    (B : InputBuffer)
    (hB : (setInputBufferSize env b ((b.size + Length + env.inc) % 2 ^ 32)).2 = B) :
    writeLoop env Length (f + 1) true b recs written setWait =
      writeLoop env Length f false
        { B with store := writeAt B.store B.inPos recs, inPos := if B.inPos + recs.length = B.size + 1 then 0 else B.inPos + recs.length }
        [] (written + recs.length) setWait := by
  simp only [writeLoop, outPathStep]
  rw [if_neg h, if_pos hfull, if_neg (by rw [hg]; exact fun hx => hx rfl), hB]
  simp [List.take_length]

theorem writeLoop_outpath_full_fail (env : Env) (Length f : Nat) (b : InputBuffer)
    (recs : List InputRecord) (written : Nat) (setWait : Bool)
    (h : ¬ recs.length < b.size + 1 - b.inPos)
    (hfull : b.outPos = 0 ∧ b.inPos = b.size)
    (hg : (setInputBufferSize env b ((b.size + Length + env.inc) % 2 ^ 32)).1 ≠
      .success) :
    writeLoop env Length (f + 1) true b recs written setWait =
      { status := (setInputBufferSize env b ((b.size + Length + env.inc) % 2 ^ 32)).1,
        eventsWritten := written, setWaitEvent := setWait, buf := b } := by
  simp only [writeLoop, outPathStep]
  rw [if_neg h, if_pos hfull, if_pos hg]

theorem writeLoop_outpath_part (env : Env) (Length f : Nat) (b : InputBuffer)
    (recs : List InputRecord) (written : Nat) (setWait : Bool) (T : Nat)
    (h : ¬ recs.length < b.size + 1 - b.inPos)
    (hfull : ¬ (b.outPos = 0 ∧ b.inPos = b.size))
    (hT : T = (b.size + 1 - b.inPos) - if b.outPos = 0 then 1 else 0) :
    writeLoop env Length (f + 1) true b recs written setWait =
      writeLoop env Length f false
        { b with store := writeAt b.store b.inPos (recs.take T), inPos := if b.inPos + T = b.size + 1 then 0 else b.inPos + T }
        (recs.drop T) (written + T) setWait := by
  simp only [writeLoop, outPathStep]
  rw [if_neg h, if_neg hfull, hT]

/-- All facts about a successful SetInputBufferSize needed by WriteBuffer. -/
theorem setInputBufferSize_facts (env : Env) (b : InputBuffer) (Size : Nat)
    (hwf : WF b) (hne : b.inPos ≠ b.outPos) (hS : countReady b ≤ Size)
    (hov : 20 * (Size + 1) < 2 ^ 64) (hal : env.allocOK = true) :
    (setInputBufferSize env b Size).1 = .success ∧
    WF (setInputBufferSize env b Size).2 ∧
    (setInputBufferSize env b Size).2.size = Size ∧
    (setInputBufferSize env b Size).2.inPos = countReady b ∧
    (setInputBufferSize env b Size).2.outPos = 0 ∧
    toList (setInputBufferSize env b Size).2 = toList b ∧
    (setInputBufferSize env b Size).2.waitEventSet = b.waitEventSet ∧
    (setInputBufferSize env b Size).2.inputMode = b.inputMode := by
  rw [setInputBufferSize_spec env b Size hwf hne hS hov hal]
  refine ⟨rfl, ⟨?_, ?_, ?_⟩, rfl, rfl, rfl, ?_, rfl, rfl⟩
  · simp only [List.length_append, List.length_replicate, toList_len b hwf]
    omega
  · simp only
    omega
  · simp only
    omega
  · generalize hX : toList b = X
    have hlen : X.length = countReady b := by rw [← hX, toList_len b hwf]
    unfold toList
    simp only
    rw [if_neg (by omega)]
    simp only [slice, Nat.sub_zero, List.drop_zero]
    exact List.take_left' hlen

/-- The WriteBuffer loop writes every record whenever either allocation
succeeds or the request already fits; the queued records gain `recs` at the
end and `SetWaitEvent` is requested exactly when a non-trivial write found
the buffer empty. -/
theorem writeLoop_success :
    ∀ (n : Nat) (env : Env) (Length fuel : Nat) (b : InputBuffer)
      (recs : List InputRecord) (written : Nat) (setWait : Bool),
      recs.length = n → WF b → 1 ≤ b.size →
      (env.allocOK = true ∨ recs.length ≤ freeSlots b) →
      b.size + Length + env.inc < 2 ^ 32 →
      written + recs.length = Length →
      2 * recs.length + 2 ≤ fuel →
      ∃ b2, writeLoop env Length fuel false b recs written setWait =
          { status := .success, eventsWritten := Length,
            setWaitEvent := setWait ||
              (decide (b.outPos = b.inPos) && decide (recs.length ≠ 0)),
            buf := b2 } ∧
        WF b2 ∧ 1 ≤ b2.size ∧ toList b2 = toList b ++ recs ∧
        b2.size ≤ b.size + Length + env.inc ∧
        b2.waitEventSet = b.waitEventSet ∧ b2.inputMode = b.inputMode := by
  intro n
  induction n using Nat.strong_induction_on with
  | _ n IH =>
  intro env Length fuel b recs written setWait hn hwf hsz halloc hbound hlen hfuel
  obtain ⟨h1, h2, h3⟩ := hwf
  obtain ⟨f, rfl⟩ : ∃ f, fuel = f + 1 := ⟨fuel - 1, by omega⟩
  by_cases hz : recs.length = 0
  · have hrecs : recs = [] := List.length_eq_zero.mp hz
    subst hrecs
    have hwL : written = Length := by simp at hlen; omega
    subst hwL
    refine ⟨b, ?_, ⟨h1, h2, h3⟩, hsz, by simp, by omega, rfl, rfl⟩
    rw [writeLoop_step_return env written f b [] written setWait (le_refl _)]
    simp
  have hnl : ¬ Length ≤ written := by omega
  have hdz : decide (recs.length ≠ 0) = true := by simp [hz]
  by_cases hW : b.inPos < b.outPos
  · -- data | free | data (wrapped free space)
    have hdio : decide (b.outPos = b.inPos) = false := by simp; omega
    have hfree : freeSlots b = b.outPos - b.inPos - 1 := by
      unfold freeSlots countReady; rw [if_pos hW]; omega
    by_cases hfit : b.outPos - b.inPos - 1 < recs.length
    · -- does not fit: grow
      have hal : env.allocOK = true := by
        rcases halloc with hal | hcontra
        · exact hal
        · rw [hfree] at hcontra; omega
      have hmod : (b.size + Length + env.inc) % 2 ^ 32 = b.size + Length + env.inc :=
        Nat.mod_eq_of_lt hbound
      have hne : b.inPos ≠ b.outPos := by omega
      have hcle : countReady b ≤ b.size := countReady_le_size b ⟨h1, h2, h3⟩
      obtain ⟨hgs, hBwf, hBsz, hBin, hBout, hBtl, hBwait, hBmode⟩ :=
        setInputBufferSize_facts env b ((b.size + Length + env.inc) % 2 ^ 32)
          ⟨h1, h2, h3⟩ hne (by rw [hmod]; omega) (by rw [hmod]; omega) hal
      rw [writeLoop_step_wgrow_ok env Length f b recs written setWait hnl hW hfit hgs]
      obtain ⟨f2, rfl⟩ : ∃ f2, f = f2 + 1 := ⟨f - 1, by omega⟩
      obtain ⟨hB1, hB2, hB3⟩ := hBwf
      have hblenL : recs.length ≤ Length := by omega
      have hBfit : recs.length < (setInputBufferSize env b
          ((b.size + Length + env.inc) % 2 ^ 32)).2.size + 1 -
          (setInputBufferSize env b ((b.size + Length + env.inc) % 2 ^ 32)).2.inPos := by
        rw [hBsz, hBin, hmod]; omega
      rw [writeLoop_outpath_fit env Length f2 _ recs written setWait hBfit]
      have htlB := toList_write_outpath
        (setInputBufferSize env b ((b.size + Length + env.inc) % 2 ^ 32)).2 recs
        hB1 hB2 hB3 (by rw [hBin, hBout]; omega)
        (by rw [hBin, hBsz, hmod]; omega) (by intro _; rw [hBin, hBsz, hmod]; omega)
      rw [writeLoop_done env Length f2 _ (written + recs.length) setWait (by omega)]
      set B := (setInputBufferSize env b ((b.size + Length + env.inc) % 2 ^ 32)).2 with hBdef
      refine ⟨{ B with store := writeAt B.store B.inPos recs, inPos := if B.inPos + recs.length = B.size + 1 then 0 else B.inPos + recs.length }, ?_, ?_, ?_, ?_, ?_, ?_, ?_⟩
      · simp only [WriteResult.mk.injEq, eq_self_iff_true, true_and, and_true]
        refine ⟨by omega, ?_⟩
        rw [hdio, hdz]
        simp
      · refine ⟨?_, ?_, ?_⟩
        · simp only [writeAt_len, hB1]
        · simp only
          split
          · omega
          · rw [hBin, hBsz, hmod]; omega
        · simp only
          rw [hBout]
          omega
      · simp only
        rw [hBsz, hmod]
        omega
      · rw [htlB, hBtl]
      · simp only
        rw [hBsz, hmod]
      · simp only [hBwait]
      · simp only [hBmode]
    · -- fits in the wrapped gap
      rw [writeLoop_step_wfit env Length f b recs written setWait hnl hW hfit]
      rw [writeLoop_done env Length f _ (written + recs.length) setWait (by omega)]
      have htl := toList_write_wrapped b recs h1 h2 h3 hW (by omega)
      refine ⟨{ b with store := writeAt b.store b.inPos recs, inPos := b.inPos + recs.length }, ?_, ⟨by simp [writeAt_len, h1], by simp; omega, h3⟩, hsz, htl, by simp; omega, rfl, rfl⟩
      simp only [WriteResult.mk.injEq, eq_self_iff_true, true_and, and_true]
      refine ⟨by omega, ?_⟩
      rw [hdio, hdz]
      simp
  · -- free | data | free (In >= Out), via OutPath
    have hout : b.outPos ≤ b.inPos := by omega
    have hfree : freeSlots b = b.size - (b.inPos - b.outPos) := by
      unfold freeSlots countReady; rw [if_neg hW]
    rw [writeLoop_step_toOutPath env Length f b recs written setWait hnl hW]
    obtain ⟨f2, rfl⟩ : ∃ f2, f = f2 + 1 := ⟨f - 1, by omega⟩
    by_cases hfitE : recs.length < b.size + 1 - b.inPos
    · -- single contiguous placement
      rw [writeLoop_outpath_fit env Length f2 b recs written _ hfitE]
      have hnw : ¬ (b.inPos + recs.length = b.size + 1) := by omega
      have htl := toList_write_outpath b recs h1 h2 h3 hout (by omega) (by omega)
      rw [if_neg hnw] at htl ⊢
      rw [writeLoop_done env Length f2 _ (written + recs.length) _ (by omega)]
      refine ⟨{ b with store := writeAt b.store b.inPos recs, inPos := b.inPos + recs.length }, ?_, ⟨by simp [writeAt_len, h1], by simp; omega, h3⟩, hsz, htl, by simp; omega, rfl, rfl⟩
      simp only [WriteResult.mk.injEq, eq_self_iff_true, true_and, and_true]
      refine ⟨by omega, ?_⟩
      rw [hdz]
      simp
    · by_cases hfull : b.outPos = 0 ∧ b.inPos = b.size
      · -- buffer totally full: grow, then place everything
        have hal : env.allocOK = true := by
          rcases halloc with hal | hcontra
          · exact hal
          · rw [hfree, hfull.1, hfull.2] at hcontra; omega
        have hmod : (b.size + Length + env.inc) % 2 ^ 32 = b.size + Length + env.inc :=
          Nat.mod_eq_of_lt hbound
        have hne : b.inPos ≠ b.outPos := by rw [hfull.1, hfull.2]; omega
        have hcle : countReady b ≤ b.size := countReady_le_size b ⟨h1, h2, h3⟩
        obtain ⟨hgs, hBwf, hBsz, hBin, hBout, hBtl, hBwait, hBmode⟩ :=
          setInputBufferSize_facts env b ((b.size + Length + env.inc) % 2 ^ 32)
            ⟨h1, h2, h3⟩ hne (by rw [hmod]; omega) (by rw [hmod]; omega) hal
        rw [writeLoop_outpath_full_ok env Length f2 b recs written _ hfitE hfull hgs _ rfl]
        obtain ⟨hB1, hB2, hB3⟩ := hBwf
        have hblenL : recs.length ≤ Length := by omega
        have hnwB : ¬ ((setInputBufferSize env b ((b.size + Length + env.inc) % 2 ^ 32)).2.inPos
            + recs.length =
            (setInputBufferSize env b ((b.size + Length + env.inc) % 2 ^ 32)).2.size + 1) := by
          rw [hBin, hBsz, hmod]; omega
        have htlB := toList_write_outpath
          (setInputBufferSize env b ((b.size + Length + env.inc) % 2 ^ 32)).2 recs
          hB1 hB2 hB3 (by rw [hBin, hBout]; omega)
          (by rw [hBin, hBsz, hmod]; omega) (by intro _; rw [hBin, hBsz, hmod]; omega)
        rw [if_neg hnwB] at htlB ⊢
        rw [writeLoop_done env Length f2 _ (written + recs.length) _ (by omega)]
        set B := (setInputBufferSize env b ((b.size + Length + env.inc) % 2 ^ 32)).2 with hBdef
        refine ⟨{ B with store := writeAt B.store B.inPos recs, inPos := B.inPos + recs.length }, ?_, ?_, ?_, ?_, ?_, ?_, ?_⟩
        · simp only [WriteResult.mk.injEq, eq_self_iff_true, true_and, and_true]
          refine ⟨by omega, ?_⟩
          have hdio : decide (b.outPos = b.inPos) = false := by
            simp only [decide_eq_false_iff_not]
            rw [hfull.1, hfull.2]; omega
          rw [hdio, hdz]
          simp
        · refine ⟨?_, ?_, ?_⟩
          · simp only [writeAt_len, hB1]
          · simp only
            rw [hBin, hBsz, hmod]
            omega
          · simp only
            rw [hBout]
            omega
        · simp only
          rw [hBsz, hmod]
          omega
        · rw [htlB, hBtl]
        · simp only
          rw [hBsz, hmod]
        · simp only [hBwait]
        · simp only [hBmode]
      · -- partial placement up to Last (or the sentinel), then recurse
        rw [writeLoop_outpath_part env Length f2 b recs written _
          ((b.size + 1 - b.inPos) - if b.outPos = 0 then 1 else 0) hfitE hfull rfl]
        by_cases ho : b.outPos = 0
        · -- Out at First: leave the sentinel slot free
          rw [if_pos ho]
          have hTgt : b.inPos < b.size := by
            rcases Nat.lt_or_ge b.inPos b.size with h | h
            · exact h
            · exact absurd ⟨ho, by omega⟩ hfull
          have hTlt : (b.size + 1 - b.inPos - 1) < recs.length := by omega
          have hal : env.allocOK = true := by
            rcases halloc with hal | hcontra
            · exact hal
            · rw [hfree, ho] at hcontra; omega
          have hnw : ¬ (b.inPos + (b.size + 1 - b.inPos - 1) = b.size + 1) := by omega
          rw [if_neg hnw]
          have hlt : (recs.take (b.size + 1 - b.inPos - 1)).length =
              b.size + 1 - b.inPos - 1 := by
            rw [List.length_take]; omega
          have htl := toList_write_outpath b (recs.take (b.size + 1 - b.inPos - 1))
            h1 h2 h3 hout (by rw [hlt]; omega) (by intro _; rw [hlt]; omega)
          rw [hlt, if_neg hnw] at htl
          have Hrec := IH (recs.drop (b.size + 1 - b.inPos - 1)).length
            (by rw [List.length_drop]; omega) env Length f2
            { b with store := writeAt b.store b.inPos (recs.take (b.size + 1 - b.inPos - 1)), inPos := b.inPos + (b.size + 1 - b.inPos - 1) }
            (recs.drop (b.size + 1 - b.inPos - 1))
            (written + (b.size + 1 - b.inPos - 1)) (setWait || decide (b.outPos = b.inPos))
            rfl ⟨by simp [writeAt_len, h1], by simp; omega, by simp; omega⟩
            (by simp; omega) (Or.inl hal) (by simp; omega)
            (by rw [List.length_drop]; omega) (by rw [List.length_drop]; omega)
          obtain ⟨b2, Heq, Hwf2, Hsz2, Htl2, Hszb, Hwait2, Hmode2⟩ := Hrec
          rw [Heq]
          refine ⟨b2, ?_, Hwf2, Hsz2, ?_, by simp at Hszb; omega, Hwait2, Hmode2⟩
          · simp only [WriteResult.mk.injEq, eq_self_iff_true, true_and, and_true]
            have hne2 : ¬ (b.outPos = b.inPos + (b.size + 1 - b.inPos - 1)) := by omega
            simp [hne2, hz]
          · rw [Htl2, htl, List.append_assoc, List.take_append_drop]
        · -- Out past First: fill to Last and wrap In to First, then recurse
          rw [if_neg ho]
          have hwrap : b.inPos + (b.size + 1 - b.inPos - 0) = b.size + 1 := by omega
          rw [if_pos hwrap]
          have hlt : (recs.take (b.size + 1 - b.inPos - 0)).length =
              b.size + 1 - b.inPos - 0 := by
            rw [List.length_take]; omega
          have htl := toList_write_outpath b (recs.take (b.size + 1 - b.inPos - 0))
            h1 h2 h3 hout (by rw [hlt]; omega) (by intro hc; exact absurd hc ho)
          rw [hlt, if_pos hwrap] at htl
          have halloc2 : env.allocOK = true ∨
              (recs.drop (b.size + 1 - b.inPos - 0)).length ≤ freeSlots
              { b with store := writeAt b.store b.inPos (recs.take (b.size + 1 - b.inPos - 0)), inPos := 0 } := by
            rcases halloc with hal | hle
            · exact Or.inl hal
            · right
              rw [List.length_drop]
              rw [hfree] at hle
              unfold freeSlots countReady
              simp only
              rw [if_pos (by omega : (0:Nat) < b.outPos)]
              omega
          have Hrec := IH (recs.drop (b.size + 1 - b.inPos - 0)).length
            (by rw [List.length_drop]; omega) env Length f2
            { b with store := writeAt b.store b.inPos (recs.take (b.size + 1 - b.inPos - 0)), inPos := 0 }
            (recs.drop (b.size + 1 - b.inPos - 0))
            (written + (b.size + 1 - b.inPos - 0)) (setWait || decide (b.outPos = b.inPos))
            rfl ⟨by simp [writeAt_len, h1], by simp, by simp; omega⟩
            (by simp; omega) halloc2 (by simp; omega)
            (by rw [List.length_drop]; omega) (by rw [List.length_drop]; omega)
          obtain ⟨b2, Heq, Hwf2, Hsz2, Htl2, Hszb, Hwait2, Hmode2⟩ := Hrec
          rw [Heq]
          refine ⟨b2, ?_, Hwf2, Hsz2, ?_, by simp at Hszb; omega, Hwait2, Hmode2⟩
          · simp only [WriteResult.mk.injEq, eq_self_iff_true, true_and, and_true]
            simp [ho, hz]
          · rw [Htl2, htl, List.append_assoc, List.take_append_drop]

/-- A failing SetInputBufferSize (allocation failure) leaves the buffer
untouched and reports STATUS_NO_MEMORY. -/
theorem setInputBufferSize_fail (env : Env) (b : InputBuffer) (Size : Nat)
    (hov : 20 * (Size + 1) < 2 ^ 64) (hal : env.allocOK = false) :
    setInputBufferSize env b Size = (.noMemory, b) := by
  unfold setInputBufferSize
  rw [if_neg (by omega), hal]
  simp

/-- The WriteBuffer loop under allocation failure with a request larger
than the free space: exactly the free slots are filled, the error is
reported, and the previously queued records are untouched. -/
theorem writeLoop_fail :
    ∀ (n : Nat) (env : Env) (Length fuel : Nat) (b : InputBuffer)
      (recs : List InputRecord) (written : Nat) (setWait : Bool),
      recs.length = n → WF b → 1 ≤ b.size →
      env.allocOK = false → freeSlots b < recs.length →
      written + recs.length = Length →
      2 * recs.length + 2 ≤ fuel →
      ∃ b2, writeLoop env Length fuel false b recs written setWait =
          { status := .noMemory, eventsWritten := written + freeSlots b,
            setWaitEvent := setWait || decide (b.outPos = b.inPos), buf := b2 } ∧
        WF b2 ∧ toList b2 = toList b ++ recs.take (freeSlots b) ∧
        b2.size = b.size ∧ countReady b2 = b.size ∧
        b2.waitEventSet = b.waitEventSet ∧ b2.inputMode = b.inputMode := by
  intro n
  induction n using Nat.strong_induction_on with
  | _ n IH =>
  intro env Length fuel b recs written setWait hn hwf hsz hal hover hlen hfuel
  obtain ⟨h1, h2, h3⟩ := hwf
  obtain ⟨f, rfl⟩ : ∃ f, fuel = f + 1 := ⟨fuel - 1, by omega⟩
  have hz : recs.length ≠ 0 := by omega
  have hnl : ¬ Length ≤ written := by omega
  have hmlt : (b.size + Length + env.inc) % 2 ^ 32 < 2 ^ 32 :=
    Nat.mod_lt _ (by norm_num)
  have hfail := setInputBufferSize_fail env b ((b.size + Length + env.inc) % 2 ^ 32)
    (by omega) hal
  have hgs : (setInputBufferSize env b ((b.size + Length + env.inc) % 2 ^ 32)).1 =
      .noMemory := by rw [hfail]
  have hgne : (setInputBufferSize env b ((b.size + Length + env.inc) % 2 ^ 32)).1 ≠
      .success := by rw [hgs]; intro hx; cases hx
  by_cases hW : b.inPos < b.outPos
  · -- wrapped free gap; the request never fits here under `hover`
    have hfree : freeSlots b = b.outPos - b.inPos - 1 := by
      unfold freeSlots countReady; rw [if_pos hW]; omega
    have hcnt : countReady b = b.size + 1 - b.outPos + b.inPos := by
      unfold countReady; rw [if_pos hW]
    have hdio : decide (b.outPos = b.inPos) = false := by simp; omega
    have hfit : b.outPos - b.inPos - 1 < recs.length := by rw [hfree] at hover; omega
    by_cases hT : b.outPos - b.inPos - 1 = 0
    · rw [writeLoop_step_wgrow_fail_zero env Length f b recs written setWait
        hnl hW hfit hgne hT, hgs]
      refine ⟨b, ?_, ⟨h1, h2, h3⟩, ?_, rfl, ?_, rfl, rfl⟩
      · simp only [WriteResult.mk.injEq, eq_self_iff_true, true_and, and_true]
        refine ⟨by rw [hfree]; omega, ?_⟩
        rw [hdio]
        simp
      · rw [hfree, hT]
        simp
      · rw [hcnt]; omega
    · rw [writeLoop_step_wgrow_fail_part env Length f b recs written setWait
        hnl hW hfit hgne hT]
      have hlt : (recs.take (b.outPos - b.inPos - 1)).length =
          b.outPos - b.inPos - 1 := by rw [List.length_take]; omega
      have htl := toList_write_wrapped b (recs.take (b.outPos - b.inPos - 1))
        h1 h2 h3 hW (by rw [hlt]; omega)
      rw [hlt] at htl
      have Hrec := IH (recs.drop (b.outPos - b.inPos - 1)).length
        (by rw [List.length_drop]; omega) env Length f
        { b with store := writeAt b.store b.inPos (recs.take (b.outPos - b.inPos - 1)), inPos := b.inPos + (b.outPos - b.inPos - 1) }
        (recs.drop (b.outPos - b.inPos - 1))
        (written + (b.outPos - b.inPos - 1)) setWait
        rfl ⟨by simp [writeAt_len, h1], by simp; omega, by simp; omega⟩
        (by simp; omega) hal ?_ (by rw [List.length_drop]; omega)
        (by rw [List.length_drop]; omega)
      · obtain ⟨b2, Heq, Hwf2, Htl2, Hsz2, Hcnt2, Hwait2, Hmode2⟩ := Hrec
        rw [Heq]
        have hfree2 : freeSlots { b with store := writeAt b.store b.inPos (recs.take (b.outPos - b.inPos - 1)), inPos := b.inPos + (b.outPos - b.inPos - 1) } = 0 := by
          unfold freeSlots countReady
          simp only
          rw [if_pos (by omega : b.inPos + (b.outPos - b.inPos - 1) < b.outPos)]
          omega
        refine ⟨b2, ?_, Hwf2, ?_, by simp at Hsz2; omega, by rw [Hcnt2], Hwait2, Hmode2⟩
        · simp only [WriteResult.mk.injEq, eq_self_iff_true, true_and, and_true]
          rw [hfree2]
          refine ⟨by rw [hfree]; omega, ?_⟩
          have hne2 : ¬ (b.outPos = b.inPos + (b.outPos - b.inPos - 1)) := by omega
          simp [hne2, hdio]
        · rw [Htl2, hfree2, htl]
          simp only [List.take_zero, List.append_nil]
          rw [hfree]
      · -- free slots of the advanced buffer are exhausted
        unfold freeSlots countReady
        simp only
        rw [if_pos (by omega : b.inPos + (b.outPos - b.inPos - 1) < b.outPos),
          List.length_drop]
        omega
  · -- In >= Out: OutPath
    have hout : b.outPos ≤ b.inPos := by omega
    have hfree : freeSlots b = b.size - (b.inPos - b.outPos) := by
      unfold freeSlots countReady; rw [if_neg hW]
    have hcnt : countReady b = b.inPos - b.outPos := by
      unfold countReady; rw [if_neg hW]
    rw [writeLoop_step_toOutPath env Length f b recs written setWait hnl hW]
    obtain ⟨f2, rfl⟩ : ∃ f2, f = f2 + 1 := ⟨f - 1, by omega⟩
    have hfitE : ¬ (recs.length < b.size + 1 - b.inPos) := by
      rw [hfree] at hover; omega
    by_cases hfull : b.outPos = 0 ∧ b.inPos = b.size
    · rw [writeLoop_outpath_full_fail env Length f2 b recs written _ hfitE hfull hgne,
        hgs]
      refine ⟨b, ?_, ⟨h1, h2, h3⟩, ?_, rfl, ?_, rfl, rfl⟩
      · simp only [WriteResult.mk.injEq, eq_self_iff_true, true_and, and_true]
        rw [hfree, hfull.1, hfull.2]
        simp
      · rw [hfree, hfull.1, hfull.2]
        simp
      · rw [hcnt, hfull.1, hfull.2]
        omega
    · rw [writeLoop_outpath_part env Length f2 b recs written _
        ((b.size + 1 - b.inPos) - if b.outPos = 0 then 1 else 0) hfitE hfull rfl]
      by_cases ho : b.outPos = 0
      · rw [if_pos ho]
        have hTgt : b.inPos < b.size := by
          rcases Nat.lt_or_ge b.inPos b.size with h | h
          · exact h
          · exact absurd ⟨ho, by omega⟩ hfull
        have hTlt : (b.size + 1 - b.inPos - 1) < recs.length := by
          rw [hfree, ho] at hover; omega
        have hnw : ¬ (b.inPos + (b.size + 1 - b.inPos - 1) = b.size + 1) := by omega
        rw [if_neg hnw]
        have hlt : (recs.take (b.size + 1 - b.inPos - 1)).length =
            b.size + 1 - b.inPos - 1 := by rw [List.length_take]; omega
        have htl := toList_write_outpath b (recs.take (b.size + 1 - b.inPos - 1))
          h1 h2 h3 hout (by rw [hlt]; omega) (by intro _; rw [hlt]; omega)
        rw [hlt, if_neg hnw] at htl
        have Hrec := IH (recs.drop (b.size + 1 - b.inPos - 1)).length
          (by rw [List.length_drop]; omega) env Length f2
          { b with store := writeAt b.store b.inPos (recs.take (b.size + 1 - b.inPos - 1)), inPos := b.inPos + (b.size + 1 - b.inPos - 1) }
          (recs.drop (b.size + 1 - b.inPos - 1))
          (written + (b.size + 1 - b.inPos - 1)) (setWait || decide (b.outPos = b.inPos))
          rfl ⟨by simp [writeAt_len, h1], by simp; omega, by simp; omega⟩
          (by simp; omega) hal ?_ (by rw [List.length_drop]; omega)
          (by rw [List.length_drop]; omega)
        · obtain ⟨b2, Heq, Hwf2, Htl2, Hsz2, Hcnt2, Hwait2, Hmode2⟩ := Hrec
          rw [Heq]
          have hfree2 : freeSlots { b with store := writeAt b.store b.inPos (recs.take (b.size + 1 - b.inPos - 1)), inPos := b.inPos + (b.size + 1 - b.inPos - 1) } = 0 := by
            unfold freeSlots countReady
            simp only
            rw [if_neg (by omega : ¬ b.inPos + (b.size + 1 - b.inPos - 1) < b.outPos)]
            omega
          refine ⟨b2, ?_, Hwf2, ?_, by simp at Hsz2; omega, by rw [Hcnt2], Hwait2,
            Hmode2⟩
          · simp only [WriteResult.mk.injEq, eq_self_iff_true, true_and, and_true]
            rw [hfree2]
            refine ⟨by rw [hfree, ho]; omega, ?_⟩
            have hne2 : ¬ (b.outPos = b.inPos + (b.size + 1 - b.inPos - 1)) := by omega
            simp [hne2]
          · rw [Htl2, hfree2, htl]
            simp only [List.take_zero, List.append_nil]
            rw [hfree, ho]
            have : b.size - (b.inPos - 0) = b.size + 1 - b.inPos - 1 := by omega
            rw [this]
        · unfold freeSlots countReady
          simp only
          rw [if_neg (by omega : ¬ b.inPos + (b.size + 1 - b.inPos - 1) < b.outPos),
            List.length_drop]
          omega
      · rw [if_neg ho]
        have hwrap : b.inPos + (b.size + 1 - b.inPos - 0) = b.size + 1 := by omega
        rw [if_pos hwrap]
        have hTle : (b.size + 1 - b.inPos - 0) ≤ recs.length := by omega
        have hlt : (recs.take (b.size + 1 - b.inPos - 0)).length =
            b.size + 1 - b.inPos - 0 := by rw [List.length_take]; omega
        have htl := toList_write_outpath b (recs.take (b.size + 1 - b.inPos - 0))
          h1 h2 h3 hout (by rw [hlt]; omega) (by intro hc; exact absurd hc ho)
        rw [hlt, if_pos hwrap] at htl
        have Hrec := IH (recs.drop (b.size + 1 - b.inPos - 0)).length
          (by rw [List.length_drop]; rw [hfree] at hover; omega) env Length f2
          { b with store := writeAt b.store b.inPos (recs.take (b.size + 1 - b.inPos - 0)), inPos := 0 }
          (recs.drop (b.size + 1 - b.inPos - 0))
          (written + (b.size + 1 - b.inPos - 0)) (setWait || decide (b.outPos = b.inPos))
          rfl ⟨by simp [writeAt_len, h1], by simp, by simp; omega⟩
          (by simp; omega) hal ?_ (by rw [List.length_drop]; omega)
          (by rw [List.length_drop]; omega)
        · obtain ⟨b2, Heq, Hwf2, Htl2, Hsz2, Hcnt2, Hwait2, Hmode2⟩ := Hrec
          rw [Heq]
          have hfree2 : freeSlots { b with store := writeAt b.store b.inPos (recs.take (b.size + 1 - b.inPos - 0)), inPos := 0 } = b.outPos - 1 := by
            unfold freeSlots countReady
            simp only
            rw [if_pos (by omega : (0:Nat) < b.outPos)]
            omega
          refine ⟨b2, ?_, Hwf2, ?_, by simp at Hsz2; omega, by rw [Hcnt2], Hwait2,
            Hmode2⟩
          · simp only [WriteResult.mk.injEq, eq_self_iff_true, true_and, and_true]
            rw [hfree2]
            refine ⟨by rw [hfree]; omega, ?_⟩
            simp [ho]
          · rw [Htl2, hfree2, htl, List.append_assoc, ← List.take_add]
            have : b.size + 1 - b.inPos - 0 + (b.outPos - 1) = freeSlots b := by
              rw [hfree]; omega
            rw [this]
        · unfold freeSlots countReady
          simp only
          rw [if_pos (by omega : (0:Nat) < b.outPos), List.length_drop]
          rw [hfree] at hover
          omega

/-- WriteBuffer when the coalescing section matches. -/
theorem writeBuffer_coalesce (env : Env) (b : InputBuffer)
    (recs : List InputRecord) (b2 : InputBuffer)
    (hone : recs.length = 1) (hne : b.outPos ≠ b.inPos)
    (hco : tryCoalesce env b (recs.getD 0 default) = some b2) :
    writeBuffer env b recs =
      { status := .success, eventsWritten := 1, setWaitEvent := false, buf := b2 } := by
  unfold writeBuffer
  rw [if_pos ⟨hone, hne⟩, hco]

/-- WriteBuffer, non-coalescing path, when the request can be fully
written (allocation works or it already fits). -/
theorem writeBuffer_spec_success (env : Env) (b : InputBuffer)
    (recs : List InputRecord)
    (hwf : WF b) (hsz : 1 ≤ b.size)
    (halloc : env.allocOK = true ∨ recs.length ≤ freeSlots b)
    (hbound : b.size + recs.length + env.inc < 2 ^ 32)
    (hnc : ¬ recs.length = 1 ∨ b.outPos = b.inPos ∨
      tryCoalesce env b (recs.getD 0 default) = none) :
    ∃ b2, writeBuffer env b recs =
        { status := .success, eventsWritten := recs.length,
          setWaitEvent := decide (b.outPos = b.inPos) && decide (recs.length ≠ 0),
          buf := b2 } ∧
      WF b2 ∧ 1 ≤ b2.size ∧ toList b2 = toList b ++ recs ∧
      b2.size ≤ b.size + recs.length + env.inc ∧
      b2.waitEventSet = b.waitEventSet ∧ b2.inputMode = b.inputMode := by
  have hloop := writeLoop_success recs.length env recs.length
    (2 * recs.length + 4) b recs 0 false rfl hwf hsz halloc hbound (by omega)
    (by omega)
  obtain ⟨b2, Heq, Hrest⟩ := hloop
  rw [Bool.false_or] at Heq
  unfold writeBuffer
  by_cases hif : recs.length = 1 ∧ b.outPos ≠ b.inPos
  · rw [if_pos hif]
    have hco : tryCoalesce env b (recs.getD 0 default) = none := by
      rcases hnc with h | h | h
      · exact absurd hif.1 h
      · exact absurd h hif.2
      · exact h
    rw [hco]
    exact ⟨b2, Heq, Hrest⟩
  · rw [if_neg hif]
    exact ⟨b2, Heq, Hrest⟩

/-- WriteBuffer, non-coalescing path, under allocation failure with a
request exceeding the free space (growth is attempted and fails). -/
theorem writeBuffer_spec_fail (env : Env) (b : InputBuffer)
    (recs : List InputRecord)
    (hwf : WF b) (hsz : 1 ≤ b.size)
    (hal : env.allocOK = false) (hover : freeSlots b < recs.length)
    (hnc : ¬ recs.length = 1 ∨ b.outPos = b.inPos ∨
      tryCoalesce env b (recs.getD 0 default) = none) :
    ∃ b2, writeBuffer env b recs =
        { status := .noMemory, eventsWritten := freeSlots b,
          setWaitEvent := decide (b.outPos = b.inPos), buf := b2 } ∧
      WF b2 ∧ toList b2 = toList b ++ recs.take (freeSlots b) ∧
      b2.size = b.size ∧ countReady b2 = b.size ∧
      b2.waitEventSet = b.waitEventSet ∧ b2.inputMode = b.inputMode := by
  have hloop := writeLoop_fail recs.length env recs.length
    (2 * recs.length + 4) b recs 0 false rfl hwf hsz hal hover (by omega) (by omega)
  obtain ⟨b2, Heq, Hrest⟩ := hloop
  rw [Bool.false_or] at Heq
  rw [Nat.zero_add] at Heq
  unfold writeBuffer
  by_cases hif : recs.length = 1 ∧ b.outPos ≠ b.inPos
  · rw [if_pos hif]
    have hco : tryCoalesce env b (recs.getD 0 default) = none := by
      rcases hnc with h | h | h
      · exact absurd hif.1 h
      · exact absurd h hif.2
      · exact h
    rw [hco]
    exact ⟨b2, Heq, Hrest⟩
  · rw [if_neg hif]
    exact ⟨b2, Heq, Hrest⟩

/-! ### The last queued record -/

theorem getD_eq_get (l : List α) (i : Nat) (d : α) (h : i < l.length) :
    l[i]? = some (l.getD i d) := by
  rw [List.getD_eq_getElem?_getD, List.getElem?_eq_getElem h]
  rfl

theorem slice_getElem? (l : List α) (a n i : Nat) (hi : i < n) :
    (slice l a n)[i]? = l[a + i]? := by
  unfold slice
  rw [List.getElem?_take_of_lt hi, List.getElem?_drop]

/-- In a well-formed non-empty buffer the last queued record sits at
`lastIdx` (the slot WriteBuffer's coalescing inspects). -/
theorem toList_getLast? (b : InputBuffer) (hwf : WF b) (hne : b.inPos ≠ b.outPos) :
    (toList b).getLast? = some (getRec b (lastIdx b)) := by
  obtain ⟨h1, h2, h3⟩ := hwf
  have hlen : (toList b).length = countReady b := toList_len b ⟨h1, h2, h3⟩
  rw [List.getLast?_eq_getElem?, hlen]
  by_cases hlay : b.inPos < b.outPos
  · have hcnt : countReady b = (b.size + 1 - b.outPos) + b.inPos := by
      unfold countReady; rw [if_pos hlay]
    have hL1 : (slice b.store b.outPos (b.size + 1 - b.outPos)).length =
        b.size + 1 - b.outPos := by rw [slice_len, h1]; omega
    unfold toList
    rw [if_pos hlay]
    by_cases hz : b.inPos = 0
    · rw [@List.getElem?_append_left _ _ _ (countReady b - 1) (by rw [hL1]; omega)]
      rw [show countReady b - 1 = b.size - b.outPos from by omega]
      rw [slice_getElem? b.store b.outPos (b.size + 1 - b.outPos) (b.size - b.outPos)
        (by omega)]
      rw [show b.outPos + (b.size - b.outPos) = b.size from by omega]
      unfold lastIdx getRec
      rw [if_pos hz]
      exact getD_eq_get b.store b.size default (by omega)
    · rw [@List.getElem?_append_right _ _ _ (countReady b - 1) (by rw [hL1]; omega)]
      rw [hL1]
      rw [show countReady b - 1 - (b.size + 1 - b.outPos) = b.inPos - 1 from by omega]
      rw [slice_getElem? b.store 0 b.inPos (b.inPos - 1) (by omega)]
      rw [Nat.zero_add]
      unfold lastIdx getRec
      rw [if_neg hz]
      exact getD_eq_get b.store (b.inPos - 1) default (by omega)
  · have hlay2 : b.outPos < b.inPos := by omega
    have hcnt : countReady b = b.inPos - b.outPos := by
      unfold countReady; rw [if_neg hlay]
    unfold toList
    rw [if_neg hlay]
    rw [slice_getElem? b.store b.outPos (b.inPos - b.outPos) (countReady b - 1)
      (by omega)]
    rw [show b.outPos + (countReady b - 1) = b.inPos - 1 from by omega]
    unfold lastIdx getRec
    rw [if_neg (by omega)]
    exact getD_eq_get b.store (b.inPos - 1) default (by omega)

/-! ### Coalescing characterization -/

/-- WriteBuffer's coalescing section falls through to the append path
exactly when the new record is not coalescible with the last-written one. -/
theorem tryCoalesce_none_iff (env : Env) (b : InputBuffer) (ev : InputRecord) :
    tryCoalesce env b ev = none ↔
      coalescible env.fw (getRec b (lastIdx b)) ev = false := by
  unfold tryCoalesce coalescible
  cases ev with
  | key k =>
    by_cases hkd : k.keyDown = true
    · by_cases hfw : env.fw k.uChar = true
      · cases hl : getRec b (lastIdx b) <;> simp [hkd, hfw]
      · by_cases hIME : k.controlKeyState &&& NLS_IME_CONVERSION ≠ 0
        · cases hl : getRec b (lastIdx b) <;> simp [hkd, hfw, hIME]
        · cases hl : getRec b (lastIdx b) <;> simp [hkd, hfw, hIME]
    · cases hl : getRec b (lastIdx b) <;> simp [hkd]
  | mouse m =>
    by_cases hmm : m.eventFlags = MOUSE_MOVED
    · cases hl : getRec b (lastIdx b) <;> simp [hmm]
    · cases hl : getRec b (lastIdx b) <;> simp [hmm]
  | windowBufferSize x y => cases hl : getRec b (lastIdx b) <;> simp
  | menu c => cases hl : getRec b (lastIdx b) <;> simp
  | focus s => cases hl : getRec b (lastIdx b) <;> simp

/-- A successful coalesce only rewrites one store slot: every cursor, the
capacity, the mode and the wait-event state are untouched. -/
theorem tryCoalesce_frame (env : Env) (b : InputBuffer) (ev : InputRecord)
    (b2 : InputBuffer) (hco : tryCoalesce env b ev = some b2) :
    b2.size = b.size ∧ b2.inPos = b.inPos ∧ b2.outPos = b.outPos ∧
    b2.waitEventSet = b.waitEventSet ∧ b2.inputMode = b.inputMode ∧
    b2.store.length = b.store.length := by
  unfold tryCoalesce at hco
  cases ev <;> (try cases hco) <;> (repeat' split at hco) <;>
    (try cases hco) <;> exact ⟨rfl, rfl, rfl, rfl, rfl, by simp⟩

/-! ### Read frame facts -/

/-- A zero-length, non-peek, non-stream Unicode read of an empty buffer is
a no-op. -/
theorem readBuffer_empty_zero (env : Env) (b : InputBuffer)
    (hE : b.inPos = b.outPos) (h3 : b.outPos ≤ b.size) :
    readBuffer env b 0 false false true =
      { status := .success, records := [], eventsRead := 0,
        resetWaitEvent := true, buf := b } := by
  have hmin : min 0 (b.size + 1 - b.outPos) = 0 := by omega
  unfold readBuffer
  rw [if_neg (by simp)]
  rw [if_neg (by omega)]
  simp only [Bool.not_true, Bool.false_eq_true, if_false, hmin, slice_zero,
    Nat.add_zero, eq_self_iff_true, if_true]
  rw [if_neg (show ¬ b.outPos = b.size + 1 from by omega)]
  rw [show ({ b with outPos := b.outPos } : InputBuffer) = b from rfl, hE]
  simp

/-- PreprocessInput never invents records. -/
theorem preprocess_len_le (env : Env) (mode : Nat) :
    ∀ (recs : List InputRecord) (flags : Nat),
      (preprocessInput env mode flags recs).1.length ≤ recs.length := by
  intro recs
  induction recs with
  | nil => intro flags; simp [preprocessInput]
  | cons r rest ih =>
    intro flags
    cases r with
    | key k =>
      simp only [preprocessInput]
      split
      · split
        · exact le_trans (ih _) (by simp)
        · split
          · exact le_trans (ih _) (by simp)
          · simp only [List.length_cons]
            exact Nat.succ_le_succ (ih _)
      · simp only [List.length_cons]
        exact Nat.succ_le_succ (ih _)
    | mouse m =>
      simp only [preprocessInput, List.length_cons]
      exact Nat.succ_le_succ (ih _)
    | windowBufferSize x y =>
      simp only [preprocessInput, List.length_cons]
      exact Nat.succ_le_succ (ih _)
    | menu c =>
      simp only [preprocessInput, List.length_cons]
      exact Nat.succ_le_succ (ih _)
    | focus s =>
      simp only [preprocessInput, List.length_cons]
      exact Nat.succ_le_succ (ih _)

/-- Every ReadBuffer path succeeds, touches only `Out`, keeps `Out` in
bounds, and requests the wait-event reset exactly when it leaves the buffer
empty. -/
theorem readBuffer_frame (env : Env) (b : InputBuffer) (Length : Nat)
    (Peek Stream Unicode : Bool) (h1 : b.store.length = b.size + 1)
    (h2 : b.inPos ≤ b.size) (h3 : b.outPos ≤ b.size) :
    (readBuffer env b Length Peek Stream Unicode).buf.inPos = b.inPos ∧
    (readBuffer env b Length Peek Stream Unicode).buf.size = b.size ∧
    (readBuffer env b Length Peek Stream Unicode).buf.store = b.store ∧
    (readBuffer env b Length Peek Stream Unicode).buf.waitEventSet = b.waitEventSet ∧
    (readBuffer env b Length Peek Stream Unicode).buf.inputMode = b.inputMode ∧
    (readBuffer env b Length Peek Stream Unicode).buf.outPos ≤ b.size ∧
    (readBuffer env b Length Peek Stream Unicode).status = .success ∧
    ((readBuffer env b Length Peek Stream Unicode).resetWaitEvent = true ↔
      (readBuffer env b Length Peek Stream Unicode).buf.outPos = b.inPos) := by
  unfold readBuffer
  simp only []
  repeat' split
  all_goals refine ⟨rfl, rfl, rfl, rfl, rfl, ?_, rfl, by simp⟩
  all_goals dsimp only
  all_goals omega

/-! ### Write / read sequences -/

/-- A successful coalesce means the new record was coalescible with the
last-written one. -/
theorem tryCoalesce_some_coalescible (env : Env) (b : InputBuffer)
    (ev : InputRecord) (b2 : InputBuffer)
    (hco : tryCoalesce env b ev = some b2) :
    coalescible env.fw (getRec b (lastIdx b)) ev = true := by
  by_contra h
  rw [Bool.not_eq_true] at h
  rw [(tryCoalesce_none_iff env b ev).mpr h] at hco
  cases hco

/-- A sequence of WriteBuffer calls whose concatenated payload has no two
adjacent coalescible records appends the whole payload to the queue. -/
theorem writeSeq_spec (env : Env) :
    ∀ (wss : List (List InputRecord)) (b : InputBuffer) (acc : List InputRecord),
      WF b → 1 ≤ b.size → env.allocOK = true → toList b = acc →
      b.size + ((wss.map List.length).sum + wss.length * env.inc) < 2 ^ 32 →
      List.Chain' (fun p c => coalescible env.fw p c = false) (acc ++ wss.flatten) →
      WF (writeSeq env b wss) ∧ 1 ≤ (writeSeq env b wss).size ∧
      toList (writeSeq env b wss) = acc ++ wss.flatten := by
  intro wss
  induction wss with
  | nil =>
    intro b acc hwf hsz hal htl hbound hchain
    refine ⟨hwf, hsz, ?_⟩
    simpa [writeSeq] using htl
  | cons ws rest ih =>
    intro b acc hwf hsz hal htl hbound hchain
    simp only [List.map_cons, List.sum_cons, List.length_cons] at hbound
    rw [Nat.add_mul, Nat.one_mul] at hbound
    have hnc : ¬ ws.length = 1 ∨ b.outPos = b.inPos ∨
        tryCoalesce env b (ws.getD 0 default) = none := by
      by_cases hone : ws.length = 1
      · by_cases hemp : b.outPos = b.inPos
        · exact Or.inr (Or.inl hemp)
        · refine Or.inr (Or.inr ?_)
          rw [tryCoalesce_none_iff]
          obtain ⟨r, rfl⟩ := List.length_eq_one.mp hone
          have hacc : acc.getLast? = some (getRec b (lastIdx b)) := by
            rw [← htl]
            exact toList_getLast? b hwf (fun h => hemp h.symm)
          rw [List.flatten_cons] at hchain
          rw [show acc ++ ([r] ++ rest.flatten) = acc ++ (r :: rest.flatten)
            from rfl] at hchain
          have := (List.chain'_append.mp hchain).2.2
          exact this _ (by rw [hacc]; rfl) r rfl
      · exact Or.inl hone
    obtain ⟨b2, Heq, hwf2, hsz2, htl2, hle2, _, _⟩ :=
      writeBuffer_spec_success env b ws hwf hsz (Or.inl hal) (by omega) hnc
    simp only [writeSeq]
    rw [Heq]
    dsimp only
    have hres := ih b2 (acc ++ ws) hwf2 hsz2 hal (by rw [htl2, htl]) (by omega)
      (by rw [List.append_assoc]; rw [List.flatten_cons] at hchain; exact hchain)
    refine ⟨hres.1, hres.2.1, ?_⟩
    rw [hres.2.2, List.flatten_cons, List.append_assoc]

/-- A sequence of non-peek Unicode ReadBuffer calls that never over-drains
the buffer delivers exactly the queued records, in order. -/
theorem readSeq_spec (env : Env) :
    ∀ (lens : List Nat) (b : InputBuffer) (rem : List InputRecord),
      WF b → toList b = rem → lensOK rem.length lens →
      (readSeq env b lens).1 = rem := by
  intro lens
  induction lens with
  | nil =>
    intro b rem hwf htl hok
    have hz : rem.length = 0 := hok
    have hrem : rem = [] := List.length_eq_zero.mp hz
    simp [readSeq, hrem]
  | cons n rest ih =>
    intro b rem hwf htl hok
    obtain ⟨hn, hrest⟩ : n ≤ rem.length ∧ lensOK (rem.length - n) rest := hok
    have hcount : countReady b = rem.length := by rw [← toList_len b hwf, htl]
    by_cases hne : b.inPos = b.outPos
    · have hcnt0 : countReady b = 0 := (countReady_zero_iff b hwf).mpr hne
      have hrem : rem = [] := List.length_eq_zero.mp (by omega)
      have hn0 : n = 0 := by
        rw [hrem] at hn
        simpa using hn
      subst hn0
      simp only [readSeq]
      rw [readBuffer_empty_zero env b hne hwf.2.2]
      dsimp only
      rw [List.nil_append]
      exact ih b rem hwf htl (by rw [hrem]; simpa [hrem] using hrest)
    · have heq := readBuffer_unicode env b n false hwf hne
      simp only [readSeq]
      rw [heq]
      dsimp only
      simp only [Bool.false_eq_true, if_false]
      have hmin : min n (countReady b) = n := by omega
      have hwf2 : WF { b with outPos :=
          (b.outPos + min n (countReady b)) % (b.size + 1) } := by
        refine ⟨hwf.1, hwf.2.1, ?_⟩
        have := Nat.mod_lt (b.outPos + min n (countReady b))
          (show 0 < b.size + 1 from by omega)
        simpa [Nat.lt_succ_iff] using this
      have htl2 : toList { b with outPos :=
          (b.outPos + min n (countReady b)) % (b.size + 1) } = rem.drop n := by
        rw [toList_readAdvance b (min n (countReady b)) hwf.1 hwf.2.1 hwf.2.2
          (by omega), hmin, htl]
      have hres := ih _ (rem.drop n) hwf2 htl2
        (by rw [List.length_drop]; exact hrest)
      rw [hres, htl, List.take_append_drop]

/-! ### The wait-signal invariant, operation by operation -/

theorem signalInv_flush (b : InputBuffer) : SignalInv (flushInputBuffer b) := by
  unfold SignalInv flushInputBuffer countReady
  simp

theorem signalInv_read (env : Env) (b : InputBuffer) (len : Nat)
    (peek waitForData stream unicode : Bool) (hwf : WF b)
    (hwait : env.waitStatus ≠ .success) (hinv : SignalInv b) :
    SignalInv (readInputBuffer env b len peek waitForData stream unicode).buf := by
  obtain ⟨hin, hsz', hst, hwe, him, hob, hstat, hiff⟩ :=
    readBuffer_frame env b len peek stream unicode hwf.1 hwf.2.1 hwf.2.2
  have hwfr : WF (readBuffer env b len peek stream unicode).buf :=
    ⟨by rw [hst, hwf.1, hsz'], by rw [hin, hsz']; exact hwf.2.1,
     by rw [hsz']; exact hob⟩
  unfold readInputBuffer
  split
  · split
    · exact hinv
    · exact hinv
  · rename_i hcond
    have hne : b.inPos ≠ b.outPos := by
      intro h
      apply hcond
      refine ⟨h, ?_⟩
      cases waitForData
      · simp
      · simpa using hwait
    dsimp only
    by_cases hrw : (readBuffer env b len peek stream unicode).resetWaitEvent = true
    · rw [if_pos hrw]
      have hout : (readBuffer env b len peek stream unicode).buf.outPos = b.inPos :=
        hiff.mp hrw
      have hcnt : countReady (readBuffer env b len peek stream unicode).buf = 0 := by
        rw [countReady_zero_iff _ hwfr, hin, hout]
      unfold SignalInv
      have hsame : countReady { (readBuffer env b len peek stream unicode).buf with
          waitEventSet := false } =
          countReady (readBuffer env b len peek stream unicode).buf := rfl
      rw [hsame, hcnt]
      simp
    · rw [if_neg hrw]
      have hout : (readBuffer env b len peek stream unicode).buf.outPos ≠ b.inPos :=
        fun h => hrw (hiff.mpr h)
      have hcnt : countReady (readBuffer env b len peek stream unicode).buf ≠ 0 := by
        rw [Ne, countReady_zero_iff _ hwfr, hin]
        exact fun h => hout h.symm
      have hcb : countReady b ≠ 0 :=
        fun h => hne ((countReady_zero_iff b hwf).mp h)
      have hbw : b.waitEventSet = true := hinv.mpr (Nat.pos_of_ne_zero hcb)
      unfold SignalInv
      rw [hwe, hbw]
      constructor
      · intro _
        exact Nat.pos_of_ne_zero hcnt
      · intro _
        rfl

theorem signalInv_flushKeep (env : Env) (b : InputBuffer) (hwf : WF b)
    (hinv : SignalInv b) : SignalInv (flushAllButKeys env b).2 := by
  obtain ⟨hin, hsz', hst, hwe, him, hob, hstat, hiff⟩ :=
    readBuffer_frame env b b.size true false true hwf.1 hwf.2.1 hwf.2.2
  unfold flushAllButKeys
  by_cases hne : b.inPos ≠ b.outPos
  · rw [if_pos hne]
    split
    · exact hinv
    · split
      · exact hinv
      · rw [if_neg (fun h => h hstat)]
        have hcb : countReady b ≠ 0 :=
          fun h => hne ((countReady_zero_iff b hwf).mp h)
        have hbw : b.waitEventSet = true := hinv.mpr (Nat.pos_of_ne_zero hcb)
        unfold SignalInv countReady
        dsimp only
        rw [if_neg (Nat.not_lt_zero _), Nat.sub_zero]
        by_cases hc0 :
            (flushCopy ({ (readBuffer env b b.size true false true).buf with
              outPos := 0 }).store
              (readBuffer env b b.size true false true).records 0 (b.size - 1)).2 = 0
        · rw [if_pos hc0, hc0]
          simp
        · rw [if_neg hc0, hwe, hbw]
          constructor
          · intro _
            exact Nat.pos_of_ne_zero hc0
          · intro _
            rfl
  · rw [if_neg hne]
    exact hinv

/-- The append path of WriteBuffer (no coalesce), followed by
WriteInputBuffer's SetEvent, preserves the signal invariant. -/
theorem signalInv_write_aux (env : Env) (b : InputBuffer) (q : List InputRecord)
    (hwf : WF b) (hsz : 1 ≤ b.size) (hq : q.length ≠ 0)
    (hbound : b.size + q.length + env.inc < 2 ^ 32)
    (hnc : ¬ q.length = 1 ∨ b.outPos = b.inPos ∨
      tryCoalesce env b (q.getD 0 default) = none)
    (hinv : SignalInv b) :
    SignalInv (if (writeBuffer env b q).setWaitEvent then
      { (writeBuffer env b q).buf with waitEventSet := true }
      else (writeBuffer env b q).buf) := by
  by_cases halloc : env.allocOK = true ∨ q.length ≤ freeSlots b
  · obtain ⟨b2, Heq, hwf2, hsz2, htl2, _, hw2, _⟩ :=
      writeBuffer_spec_success env b q hwf hsz halloc hbound hnc
    rw [Heq]
    dsimp only
    have hcnt2 : countReady b2 = countReady b + q.length := by
      rw [← toList_len b2 hwf2, htl2, List.length_append, toList_len b hwf]
    by_cases hemp : b.outPos = b.inPos
    · rw [if_pos (by simp [hemp, hq])]
      unfold SignalInv
      rw [show ({ b2 with waitEventSet := true } : InputBuffer).waitEventSet = true
        from rfl]
      rw [show countReady { b2 with waitEventSet := true } = countReady b2 from rfl]
      rw [hcnt2]
      simp
      omega
    · rw [if_neg (by simp [hemp])]
      unfold SignalInv
      rw [hw2, hcnt2]
      have hcb : countReady b ≠ 0 :=
        fun h => hemp ((countReady_zero_iff b hwf).mp h).symm
      have hbw : b.waitEventSet = true := hinv.mpr (Nat.pos_of_ne_zero hcb)
      rw [hbw]
      constructor
      · intro _
        omega
      · intro _
        rfl
  · have hal : env.allocOK = false := by
      rcases Bool.eq_false_or_eq_true env.allocOK with h | h
      · exact absurd (Or.inl h) halloc
      · exact h
    have hover : freeSlots b < q.length := by
      rcases Nat.lt_or_ge (freeSlots b) q.length with h | h
      · exact h
      · exact absurd (Or.inr h) halloc
    obtain ⟨b2, Heq, hwf2, htl2, hsz2eq, hcnt2, hw2, _⟩ :=
      writeBuffer_spec_fail env b q hwf hsz hal hover hnc
    rw [Heq]
    dsimp only
    by_cases hemp : b.outPos = b.inPos
    · rw [if_pos (by simp [hemp])]
      unfold SignalInv
      rw [show ({ b2 with waitEventSet := true } : InputBuffer).waitEventSet = true
        from rfl]
      rw [show countReady { b2 with waitEventSet := true } = countReady b2 from rfl]
      rw [hcnt2]
      simp
      omega
    · rw [if_neg (by simp [hemp])]
      unfold SignalInv
      rw [hw2, hcnt2]
      have hcb : countReady b ≠ 0 :=
        fun h => hemp ((countReady_zero_iff b hwf).mp h).symm
      have hbw : b.waitEventSet = true := hinv.mpr (Nat.pos_of_ne_zero hcb)
      rw [hbw]
      constructor
      · intro _
        omega
      · intro _
        rfl

theorem signalInv_write (env : Env) (b : InputBuffer) (recs : List InputRecord)
    (hwf : WF b) (hsz : 1 ≤ b.size)
    (hbound : b.size + recs.length + env.inc < 2 ^ 32)
    (hinv : SignalInv b) :
    SignalInv (writeInputBuffer env b recs).2.1 := by
  have hple := preprocess_len_le env b.inputMode recs env.flags
  unfold writeInputBuffer
  dsimp only
  split
  · exact hinv
  · rename_i hp
    by_cases hcoal : (preprocessInput env b.inputMode env.flags recs).1.length = 1 ∧
        b.outPos ≠ b.inPos
    · cases hco : tryCoalesce env b
          ((preprocessInput env b.inputMode env.flags recs).1.getD 0 default) with
      | some bc =>
        rw [writeBuffer_coalesce env b _ bc hcoal.1 hcoal.2 hco]
        dsimp only
        rw [if_neg (by simp)]
        obtain ⟨hs, hi, ho, hw, _, _⟩ := tryCoalesce_frame env b _ bc hco
        have hcrc : countReady bc = countReady b := by
          unfold countReady
          rw [hi, ho, hs]
        unfold SignalInv
        rw [hcrc, hw]
        exact hinv
      | none =>
        exact signalInv_write_aux env b _ hwf hsz hp (by omega)
          (Or.inr (Or.inr hco)) hinv
    · have hnc : ¬ (preprocessInput env b.inputMode env.flags recs).1.length = 1 ∨
          b.outPos = b.inPos ∨
          tryCoalesce env b
            ((preprocessInput env b.inputMode env.flags recs).1.getD 0 default) =
            none := by
        by_cases h1 : (preprocessInput env b.inputMode env.flags recs).1.length = 1
        · by_cases h2 : b.outPos = b.inPos
          · exact Or.inr (Or.inl h2)
          · exact absurd ⟨h1, h2⟩ hcoal
        · exact Or.inl h1
      exact signalInv_write_aux env b _ hwf hsz hp (by omega) hnc hinv

/-! ### The claims -/

/-- C4: for a non-empty buffer whose most-recently-written record is a
mouse event with the moved flag, writing a single mouse-moved record
overwrites the position of that last record in place, reports 1 record
written, moves no cursor and leaves the ready count unchanged. -/
theorem mouse_coalesce_C4 (env : Env) (b : InputBuffer) (m lm : MouseEvent)
    (hne : b.outPos ≠ b.inPos) (hm : m.eventFlags = MOUSE_MOVED)
    (hlast : getRec b (lastIdx b) = .mouse lm)
    (hlm : lm.eventFlags = MOUSE_MOVED) :
    writeBuffer env b [.mouse m] =
      { status := .success, eventsWritten := 1, setWaitEvent := false,
        buf := { b with store := b.store.set (lastIdx b) (.mouse { lm with posX := m.posX, posY := m.posY }) } } ∧
    countReady { b with store := b.store.set (lastIdx b) (.mouse { lm with posX := m.posX, posY := m.posY }) } = countReady b := by
  have hco : tryCoalesce env b (InputRecord.mouse m) =
      some { b with store := b.store.set (lastIdx b) (.mouse { lm with posX := m.posX, posY := m.posY }) } := by
    simp [tryCoalesce, hlast, hm, hlm]
  exact ⟨writeBuffer_coalesce env b [.mouse m] _ rfl hne hco, rfl⟩

theorem mouse_coalesce_C4_witness :
    writeBuffer envStd bMouse [mouseMove 6 6] =
      { status := .success, eventsWritten := 1, setWaitEvent := false,
        buf := { bMouse with store := [mouseMove 6 6, .menu 0, .menu 0] } } ∧
    countReady { bMouse with store := [mouseMove 6 6, .menu 0, .menu 0] } =
      countReady bMouse :=
  mouse_coalesce_C4 envStd bMouse ⟨6, 6, 0, 0, MOUSE_MOVED⟩ ⟨5, 5, 0, 0, MOUSE_MOVED⟩
    (by decide) rfl rfl rfl

/-- C10: key-repeat coalescing stores the sum of the two repeat counts in
16-bit arithmetic: for WORD repeat counts whose true sum reaches `2 ^ 16`
the stored count is the sum minus `2 ^ 16` (a silent wrap), and the write
still reports plain success. -/
theorem key_repeat_wrap_C10 (env : Env) (b : InputBuffer) (k lk : KeyEvent)
    (hne : b.outPos ≠ b.inPos) (hkd : k.keyDown = true)
    (hfw : env.fw k.uChar = false)
    (hIME : k.controlKeyState &&& NLS_IME_CONVERSION = 0)
    (hlast : getRec b (lastIdx b) = .key lk) (hlkd : lk.keyDown = true)
    (hsc : lk.virtualScanCode = k.virtualScanCode) (hch : lk.uChar = k.uChar)
    (hcs : lk.controlKeyState = k.controlKeyState)
    (hr1 : lk.repeatCount < 2 ^ 16) (hr2 : k.repeatCount < 2 ^ 16) :
    writeBuffer env b [.key k] =
      { status := .success, eventsWritten := 1, setWaitEvent := false,
        buf := { b with store := b.store.set (lastIdx b) (.key { lk with repeatCount := (lk.repeatCount + k.repeatCount) % 2 ^ 16 }) } } ∧
    (2 ^ 16 ≤ lk.repeatCount + k.repeatCount →
      (lk.repeatCount + k.repeatCount) % 2 ^ 16 =
        lk.repeatCount + k.repeatCount - 2 ^ 16) := by
  have hco : tryCoalesce env b (InputRecord.key k) =
      some { b with store := b.store.set (lastIdx b) (.key { lk with repeatCount := (lk.repeatCount + k.repeatCount) % 2 ^ 16 }) } := by
    simp [tryCoalesce, hlast, hkd, hfw, hIME, hlkd, hsc, hch, hcs]
  refine ⟨writeBuffer_coalesce env b [.key k] _ rfl hne hco, ?_⟩
  intro h
  omega

theorem key_repeat_wrap_C10_witness :
    writeBuffer envStd bKeyMax [.key ⟨true, 2, 65, 30, 97, 0⟩] =
      { status := .success, eventsWritten := 1, setWaitEvent := false,
        buf := { bKeyMax with store := [.key ⟨true, 1, 65, 30, 97, 0⟩, .menu 0, .menu 0] } } ∧
    (2 ^ 16 ≤ 65535 + 2 → (65535 + 2) % 2 ^ 16 = 65535 + 2 - 2 ^ 16) :=
  key_repeat_wrap_C10 envStd bKeyMax ⟨true, 2, 65, 30, 97, 0⟩
    ⟨true, 65535, 65, 30, 97, 0⟩ (by decide) rfl rfl (by decide) rfl rfl rfl
    rfl rfl (by decide) (by decide)

/-- C7: when growth fails during a write (failing allocator, request larger
than the free space), WriteBuffer writes exactly as many records as fit in
the current capacity (possibly zero), reports that partial count, returns
the resource error, and the previously queued records survive as an intact
prefix in their original order. -/
theorem write_growth_failure_C7 (env : Env) (b : InputBuffer)
    (recs : List InputRecord) (hwf : WF b) (hsz : 1 ≤ b.size)
    (hal : env.allocOK = false) (hover : freeSlots b < recs.length)
    (hnc : ¬ recs.length = 1 ∨ b.outPos = b.inPos ∨
      tryCoalesce env b (recs.getD 0 default) = none) :
    ∃ b2, writeBuffer env b recs =
      { status := .noMemory, eventsWritten := freeSlots b,
        setWaitEvent := decide (b.outPos = b.inPos), buf := b2 } ∧
      toList b2 = toList b ++ recs.take (freeSlots b) ∧
      (toList b2).take (countReady b) = toList b ∧
      b2.size = b.size := by
  obtain ⟨b2, Heq, hwf2, htl2, hszeq, hcnt2, _, _⟩ :=
    writeBuffer_spec_fail env b recs hwf hsz hal hover hnc
  refine ⟨b2, Heq, htl2, ?_, hszeq⟩
  rw [htl2, ← toList_len b hwf, List.take_left]

theorem write_growth_failure_C7_witness :
    ∃ b2, writeBuffer envNoMem bFullMenus [kRecA] =
      { status := .noMemory, eventsWritten := freeSlots bFullMenus,
        setWaitEvent := decide (bFullMenus.outPos = bFullMenus.inPos),
        buf := b2 } ∧
      toList b2 = toList bFullMenus ++ [kRecA].take (freeSlots bFullMenus) ∧
      (toList b2).take (countReady bFullMenus) = toList bFullMenus ∧
      b2.size = bFullMenus.size :=
  write_growth_failure_C7 envNoMem bFullMenus [kRecA] (by decide) (by decide)
    rfl (by decide) (by decide)

/-- C9: when preprocessing leaves records to prepend and the read-out of
the pre-existing events succeeds — vacuously, because none are queued, or
genuinely, because the scratch size does not overflow and its allocation
works — PrependInputBuffer reports success and the preprocessed record
count, whatever the two discarded WriteBuffer sub-calls did.  In the
empty-buffer case the allocator is unconstrained, so the sub-writes may
genuinely fail (and with `env.allocOK = false` and an oversize request the
first one does, returning `noMemory`); the failure is still discarded. -/
theorem prepend_discards_substatus_C9 (env : Env) (b : InputBuffer)
    (recs : List InputRecord) (hwf : WF b)
    (hp : (preprocessInput env b.inputMode env.flags recs).1.length ≠ 0)
    (hok : countReady b = 0 ∨
      (20 * countReady b < 2 ^ 32 ∧ env.allocOK = true)) :
    (prependInputBuffer env b recs).status = .success ∧
    (prependInputBuffer env b recs).length =
      (preprocessInput env b.inputMode env.flags recs).1.length := by
  obtain ⟨_, _, _, _, _, _, hstat, _⟩ :=
    readBuffer_frame env b (countReady b) false false true hwf.1 hwf.2.1 hwf.2.2
  unfold prependInputBuffer
  dsimp only
  rw [if_neg hp]
  by_cases hex : countReady b ≠ 0
  · have hov : 20 * countReady b < 2 ^ 32 := by
      rcases hok with h | ⟨h, _⟩
      · exact absurd h hex
      · exact h
    have hal : env.allocOK = true := by
      rcases hok with h | ⟨_, h⟩
      · exact absurd h hex
      · exact h
    rw [if_pos hex, if_neg (by omega), hal]
    simp only [Bool.not_true, Bool.false_eq_true, if_false]
    rw [if_neg (fun h => h hstat)]
    exact ⟨rfl, rfl⟩
  · rw [if_neg hex]
    exact ⟨rfl, rfl⟩

theorem prepend_discards_substatus_C9_witness :
    (writeBuffer envNoMem (createInputBuffer envNoMem 2)
      (preprocessInput envNoMem (createInputBuffer envNoMem 2).inputMode
        envNoMem.flags [kRecA, kRecB, kRecC]).1).status = .noMemory ∧
    ((prependInputBuffer envNoMem (createInputBuffer envNoMem 2)
        [kRecA, kRecB, kRecC]).status = .success ∧
      (prependInputBuffer envNoMem (createInputBuffer envNoMem 2)
        [kRecA, kRecB, kRecC]).length =
        (preprocessInput envNoMem (createInputBuffer envNoMem 2).inputMode
          envNoMem.flags [kRecA, kRecB, kRecC]).1.length) :=
  ⟨by decide,
   prepend_discards_substatus_C9 envNoMem (createInputBuffer envNoMem 2)
     [kRecA, kRecB, kRecC] (by decide) (by decide) (Or.inl (by decide))⟩

/-- C6: the wait-signal invariant — `InputWaitEvent` is set iff
`CountReady() > 0` — is preserved by every public operation (write, read,
flush, flush-all-but-keys) from any state satisfying it, provided the
external wait never reports success (the reader is suspended instead). -/
theorem wait_signal_invariant_C6 (env : Env) (b : InputBuffer) (op : Op)
    (hwf : WF b) (hsz : 1 ≤ b.size) (hwait : env.waitStatus ≠ .success)
    (hbound : b.size + opLen op + env.inc < 2 ^ 32)
    (hinv : SignalInv b) : SignalInv (step env b op) := by
  cases op with
  | write recs => exact signalInv_write env b recs hwf hsz hbound hinv
  | read len peek waitForData stream unicode =>
    exact signalInv_read env b len peek waitForData stream unicode hwf hwait hinv
  | flush => exact signalInv_flush b
  | flushKeep => exact signalInv_flushKeep env b hwf hinv

theorem wait_signal_invariant_C6_witness :
    SignalInv (step envStd (createInputBuffer envStd 4) (.write [kRecA])) :=
  wait_signal_invariant_C6 envStd (createInputBuffer envStd 4) (.write [kRecA])
    (by decide) (by decide) (by decide) (by decide) (by decide)

/-- C8: starting from a fresh tracker, Invalidate(A) then Invalidate(B)
leaves as the tracked invalid region the bounding rectangle of A and B
clipped (truncated, never discarded) to the origin-relative viewport; the
clip is applied after every mutation, the used flag is set and the
viewport is untouched. -/
theorem invalid_region_union_clip_C8 (s : VtEngineState) (A B : ExRect)
    (hfresh : s.fInvalidRectUsed = false) :
    (vtInvalidate (vtInvalidate s A) B).invalidRect =
      trimToViewport (toOrigin s.lastViewport) (orRect A B) ∧
    (vtInvalidate s A).invalidRect = trimToViewport (toOrigin s.lastViewport) A ∧
    (vtInvalidate (vtInvalidate s A) B).fInvalidRectUsed = true ∧
    (vtInvalidate (vtInvalidate s A) B).lastViewport = s.lastViewport := by
  unfold vtInvalidate invalidCombine invalidRestrict
  rw [hfresh]
  simp only [Bool.not_false, Bool.not_true, Bool.false_eq_true, if_true, if_false]
  refine ⟨?_, trivial, trivial, trivial⟩
  unfold trimToViewport orRect toOrigin
  simp only [ExRect.mk.injEq]
  refine ⟨?_, ?_, ?_, ?_⟩ <;> omega

theorem invalid_region_union_clip_C8_witness :
    (vtInvalidate (vtInvalidate ⟨⟨0, 0, 0, 0⟩, false, ⟨0, 0, 80, 25⟩⟩
        ⟨1, 1, 5, 5⟩) ⟨3, 3, 90, 30⟩).invalidRect =
      trimToViewport (toOrigin (⟨0, 0, 80, 25⟩ : ExRect))
        (orRect ⟨1, 1, 5, 5⟩ ⟨3, 3, 90, 30⟩) ∧
    (vtInvalidate ⟨⟨0, 0, 0, 0⟩, false, ⟨0, 0, 80, 25⟩⟩
        ⟨1, 1, 5, 5⟩).invalidRect =
      trimToViewport (toOrigin (⟨0, 0, 80, 25⟩ : ExRect)) ⟨1, 1, 5, 5⟩ ∧
    (vtInvalidate (vtInvalidate ⟨⟨0, 0, 0, 0⟩, false, ⟨0, 0, 80, 25⟩⟩
        ⟨1, 1, 5, 5⟩) ⟨3, 3, 90, 30⟩).fInvalidRectUsed = true ∧
    (vtInvalidate (vtInvalidate ⟨⟨0, 0, 0, 0⟩, false, ⟨0, 0, 80, 25⟩⟩
        ⟨1, 1, 5, 5⟩) ⟨3, 3, 90, 30⟩).lastViewport = ⟨0, 0, 80, 25⟩ :=
  invalid_region_union_clip_C8 ⟨⟨0, 0, 0, 0⟩, false, ⟨0, 0, 80, 25⟩⟩
    ⟨1, 1, 5, 5⟩ ⟨3, 3, 90, 30⟩ rfl

/-- C1 as stated is false: resizing an EMPTY capacity-2 buffer to capacity
3 succeeds but changes `CountReady()` from 0 to 3 — the copy-out read of an
empty ring takes the wrapped path and transfers `min(newSize, size + 1 -
Out)` uninitialized slots, so the new buffer reports 3 ready records. -/
theorem resize_counterexample_C1 :
    countReady (createInputBuffer envStd 2) = 0 ∧
    (createInputBuffer envStd 2).size < 3 ∧
    (setInputBufferSize envStd (createInputBuffer envStd 2) 3).1 = .success ∧
    countReady (setInputBufferSize envStd (createInputBuffer envStd 2) 3).2 = 3 := by
  decide

/-- C1 (amended): for every NON-EMPTY well-formed buffer and every new
capacity strictly above the current one (and below `2 ^ 32`), a successful
SetInputBufferSize preserves `CountReady()` and copies the unread records
into a contiguous prefix of the new store in order. -/
theorem resize_preserves_count_C1 (env : Env) (b : InputBuffer) (Size : Nat)
    (hwf : WF b) (hne : b.inPos ≠ b.outPos) (hgt : b.size < Size)
    (hS : Size < 2 ^ 32) (hal : env.allocOK = true) :
    (setInputBufferSize env b Size).1 = .success ∧
    countReady (setInputBufferSize env b Size).2 = countReady b ∧
    toList (setInputBufferSize env b Size).2 = toList b ∧
    slice (setInputBufferSize env b Size).2.store 0 (countReady b) = toList b := by
  have hcle : countReady b ≤ b.size := countReady_le_size b hwf
  obtain ⟨h1, h2, h3, h4, h5, h6, _, _⟩ :=
    setInputBufferSize_facts env b Size hwf hne (by omega) (by omega) hal
  refine ⟨h1, ?_, h6, ?_⟩
  · rw [← toList_len _ h2, h6, toList_len b hwf]
  · rw [setInputBufferSize_spec env b Size hwf hne (by omega) (by omega) hal]
    dsimp only
    unfold slice
    rw [List.drop_zero]
    exact List.take_left' (toList_len b hwf)

theorem resize_preserves_count_C1_witness :
    (setInputBufferSize envStd bKeyA 5).1 = .success ∧
    countReady (setInputBufferSize envStd bKeyA 5).2 = countReady bKeyA ∧
    toList (setInputBufferSize envStd bKeyA 5).2 = toList bKeyA ∧
    slice (setInputBufferSize envStd bKeyA 5).2.store 0 (countReady bKeyA) =
      toList bKeyA :=
  resize_preserves_count_C1 envStd bKeyA 5 (by decide) (by decide) (by decide)
    (by decide) rfl

/-- C2 as stated is false: a stream-mode read of a buffer whose next
queued record is a key event REMOVES the stored record — `Out` advances
past it and `CountReady()` drops from 1 to 0 — rather than leaving it
buffered. -/
theorem stream_read_counterexample_C2 :
    countReady bKey3 = 1 ∧
    (readBuffer envStd bKey3 1 false true true).eventsRead = 1 ∧
    countReady (readBuffer envStd bKey3 1 false true true).buf = 0 := by
  decide

/-- C2 (amended): a stream-mode read whose next queued record is a key
event copies out exactly that one record with its repeat count preserved
on the EMITTED record, and removes it from the buffer: `Out` advances past
the record and the ready count drops by one. -/
theorem stream_read_C2 (env : Env) (b : InputBuffer) (Length : Nat)
    (Peek Unicode : Bool) (lk : KeyEvent) (hwf : WF b)
    (hkey : getRec b b.outPos = .key lk) :
    readBuffer env b Length Peek true Unicode =
      { status := .success, records := [.key lk], eventsRead := 1,
        resetWaitEvent := decide ((if b.size + 1 = b.outPos + 1 then 0 else b.outPos + 1) = b.inPos),
        buf := { b with outPos := if b.size + 1 = b.outPos + 1 then 0 else b.outPos + 1 } } ∧
    (b.inPos ≠ b.outPos →
      countReady { b with outPos := if b.size + 1 = b.outPos + 1 then 0 else b.outPos + 1 } =
        countReady b - 1) := by
  obtain ⟨h1, h2, h3⟩ := hwf
  constructor
  · have h := readBuffer_stream env b Length Peek Unicode (by rw [hkey]; rfl)
    rw [hkey] at h
    exact h
  · intro hne
    unfold countReady
    dsimp only
    by_cases hwrap : b.size + 1 = b.outPos + 1
    · rw [if_pos hwrap, if_neg (Nat.not_lt_zero _), if_pos (by omega)]
      omega
    · rw [if_neg hwrap]
      by_cases hlay : b.inPos < b.outPos
      · rw [if_pos (by omega), if_pos hlay]
        omega
      · rw [if_neg (by omega), if_neg hlay]
        omega

theorem stream_read_C2_witness :
    (readBuffer envStd bKey3 1 false true true =
      { status := .success, records := [kRec3], eventsRead := 1,
        resetWaitEvent := true, buf := { bKey3 with outPos := 1 } }) ∧
    (bKey3.inPos ≠ bKey3.outPos →
      countReady { bKey3 with outPos := 1 } = countReady bKey3 - 1) :=
  stream_read_C2 envStd bKey3 1 false true ⟨true, 3, 65, 30, 97, 0⟩
    (by decide) rfl

/-- C3: from an empty buffer, any sequence of WriteBuffer calls followed by
non-peek Unicode ReadBuffer calls that drain exactly the written records
delivers the written records in order (FIFO), provided no adjacent pair of
the concatenated payload is coalescing-eligible. -/
theorem fifo_roundtrip_C3 (env : Env) (b0 : InputBuffer)
    (wss : List (List InputRecord)) (lens : List Nat)
    (hwf : WF b0) (hsz : 1 ≤ b0.size) (hempty : b0.inPos = b0.outPos)
    (hal : env.allocOK = true)
    (hbound : b0.size + ((wss.map List.length).sum + wss.length * env.inc) < 2 ^ 32)
    (hchain : List.Chain' (fun p c => coalescible env.fw p c = false) wss.flatten)
    (hlens : lensOK (wss.map List.length).sum lens) :
    (readSeq env (writeSeq env b0 wss) lens).1 = wss.flatten := by
  have h0 : countReady b0 = 0 := (countReady_zero_iff b0 hwf).mpr hempty
  have htl0 : toList b0 = [] := by
    have hl := toList_len b0 hwf
    rw [h0] at hl
    exact List.length_eq_zero.mp hl
  obtain ⟨hwfW, hszW, htlW⟩ := writeSeq_spec env wss b0 [] hwf hsz hal htl0 hbound
    (by simpa using hchain)
  rw [List.nil_append] at htlW
  apply readSeq_spec env lens _ wss.flatten hwfW htlW
  rw [List.length_flatten]
  exact hlens

theorem fifo_roundtrip_C3_witness :
    (readSeq envStd (writeSeq envStd (createInputBuffer envStd 4)
      [[kRecA, kRecB], [kRecC]]) [3]).1 = [[kRecA, kRecB], [kRecC]].flatten :=
  fifo_roundtrip_C3 envStd (createInputBuffer envStd 4) [[kRecA, kRecB], [kRecC]]
    [3] (by decide) (by decide) rfl rfl (by decide)
    (List.Chain.cons (by decide) (List.Chain.cons (by decide) List.Chain.nil))
    (by decide)

/-- C5: for a non-empty buffer, a single key-down record that is not a
full-width character merges into the last-written record (summing repeat
counts, one record reported written, no cursor or capacity change) exactly
when (a) its IME-conversion flag is set and the last record is a key-down
with the same character and control-key state, or (b) the last record is a
key-down with the same scan code, character and control-key state. -/
theorem key_coalesce_iff_C5 (env : Env) (b : InputBuffer) (k : KeyEvent)
    (hwf : WF b) (hsz : 1 ≤ b.size) (hne : b.outPos ≠ b.inPos)
    (hkd : k.keyDown = true) (hfw : env.fw k.uChar = false)
    (hal : env.allocOK = true) (hbound : b.size + 1 + env.inc < 2 ^ 32) :
    (∃ lk : KeyEvent, getRec b (lastIdx b) = .key lk ∧
        writeBuffer env b [.key k] =
          { status := .success, eventsWritten := 1, setWaitEvent := false,
            buf := { b with store := b.store.set (lastIdx b) (.key { lk with repeatCount := (lk.repeatCount + k.repeatCount) % 2 ^ 16 }) } }) ↔
      ((k.controlKeyState &&& NLS_IME_CONVERSION ≠ 0 ∧
        ∃ lk : KeyEvent, getRec b (lastIdx b) = .key lk ∧ lk.keyDown = true ∧
          lk.uChar = k.uChar ∧ lk.controlKeyState = k.controlKeyState) ∨
       (∃ lk : KeyEvent, getRec b (lastIdx b) = .key lk ∧ lk.keyDown = true ∧
          lk.virtualScanCode = k.virtualScanCode ∧ lk.uChar = k.uChar ∧
          lk.controlKeyState = k.controlKeyState)) := by
  constructor
  · rintro ⟨lk, hlast, heq⟩
    by_contra hnot
    have hnA : ¬ (k.controlKeyState &&& NLS_IME_CONVERSION ≠ 0 ∧
        ∃ lk' : KeyEvent, getRec b (lastIdx b) = .key lk' ∧ lk'.keyDown = true ∧
          lk'.uChar = k.uChar ∧ lk'.controlKeyState = k.controlKeyState) :=
      fun h => hnot (Or.inl h)
    have hnB : ¬ (∃ lk' : KeyEvent, getRec b (lastIdx b) = .key lk' ∧
        lk'.keyDown = true ∧ lk'.virtualScanCode = k.virtualScanCode ∧
        lk'.uChar = k.uChar ∧ lk'.controlKeyState = k.controlKeyState) :=
      fun h => hnot (Or.inr h)
    have hnone : tryCoalesce env b (InputRecord.key k) = none := by
      unfold tryCoalesce
      dsimp only
      simp only [hkd, hfw, eq_self_iff_true, if_true, Bool.false_eq_true, if_false]
      by_cases hIME : k.controlKeyState &&& NLS_IME_CONVERSION ≠ 0
      · rw [if_pos hIME, hlast]
        dsimp only
        rw [if_neg (fun hc => hnA ⟨hIME, lk, hlast, hc.1, hc.2.1, hc.2.2⟩)]
      · rw [if_neg hIME, hlast]
        dsimp only
        rw [if_neg (fun hc => hnB ⟨lk, hlast, hc.1, hc.2.1, hc.2.2.1, hc.2.2.2⟩)]
    obtain ⟨b2, Heq2, hwf2, hsz2, htl2, _, _, _⟩ :=
      writeBuffer_spec_success env b [.key k] hwf hsz (Or.inl hal) hbound
        (Or.inr (Or.inr hnone))
    have h12 := heq.symm.trans Heq2
    simp only [WriteResult.mk.injEq] at h12
    have hb2 : { b with store := b.store.set (lastIdx b) (.key { lk with repeatCount := (lk.repeatCount + k.repeatCount) % 2 ^ 16 }) } = b2 :=
      h12.2.2.2
    have hcnt2 : countReady b2 = countReady b + 1 := by
      have hx := toList_len b2 hwf2
      rw [htl2, List.length_append, toList_len b hwf] at hx
      simpa using hx.symm
    have hsame : countReady b2 = countReady b := by
      rw [← hb2]
      exact rfl
    omega
  · rintro (⟨hIME, lk, hlast, hlkd, hch, hcs⟩ | ⟨lk, hlast, hlkd, hsc, hch, hcs⟩)
    · refine ⟨lk, hlast, ?_⟩
      have hco : tryCoalesce env b (InputRecord.key k) =
          some { b with store := b.store.set (lastIdx b) (.key { lk with repeatCount := (lk.repeatCount + k.repeatCount) % 2 ^ 16 }) } := by
        simp [tryCoalesce, hkd, hfw, hIME, hlast, hlkd, hch, hcs]
      exact writeBuffer_coalesce env b [.key k] _ rfl hne hco
    · refine ⟨lk, hlast, ?_⟩
      by_cases hIME : k.controlKeyState &&& NLS_IME_CONVERSION ≠ 0
      · have hco : tryCoalesce env b (InputRecord.key k) =
            some { b with store := b.store.set (lastIdx b) (.key { lk with repeatCount := (lk.repeatCount + k.repeatCount) % 2 ^ 16 }) } := by
          simp [tryCoalesce, hkd, hfw, hIME, hlast, hlkd, hch, hcs]
        exact writeBuffer_coalesce env b [.key k] _ rfl hne hco
      · have hco : tryCoalesce env b (InputRecord.key k) =
            some { b with store := b.store.set (lastIdx b) (.key { lk with repeatCount := (lk.repeatCount + k.repeatCount) % 2 ^ 16 }) } := by
          simp [tryCoalesce, hkd, hfw, hIME, hlast, hlkd, hsc, hch, hcs]
        exact writeBuffer_coalesce env b [.key k] _ rfl hne hco

theorem key_coalesce_iff_C5_witness :
    ∃ lk : KeyEvent, getRec bKeyA (lastIdx bKeyA) = .key lk ∧
      writeBuffer envStd bKeyA [.key ⟨true, 2, 65, 30, 97, 0⟩] =
        { status := .success, eventsWritten := 1, setWaitEvent := false,
          buf := { bKeyA with store := bKeyA.store.set (lastIdx bKeyA) (.key { lk with repeatCount := (lk.repeatCount + 2) % 2 ^ 16 }) } } :=
  (key_coalesce_iff_C5 envStd bKeyA ⟨true, 2, 65, 30, 97, 0⟩ (by decide)
    (by decide) (by decide) rfl rfl rfl (by decide)).mpr
    (Or.inr ⟨⟨true, 1, 65, 30, 97, 0⟩, rfl, rfl, rfl, rfl, rfl⟩)

end Terminal
